import Mathlib

/-!
# Verification of the Orbit Vulkan layer (`OrbitVulkanLayer/Main.cpp`)

This file gives a shallow embedding of the observable behaviour of the
layer's entry points from `src/OrbitVulkanLayer/Main.cpp`, and a model of the
state-tracking core (query-pool slots, command-buffer lifecycle, queue
registry, submission correlation) whose implementation files are not part of
the source tree and are therefore modelled from the specification.

Machine conventions:
* `VkResult` values are modelled as `Int` (their C enum values).
* C strings are modelled as `List Char`; a null pointer argument is `none`.
* An out-parameter `uint32_t*` is modelled by its pointed-to value; a possibly
  null out-parameter is an `Option`.
* A fired `CHECK` (Orbit's fatal assertion macro, which logs and aborts the
  process) is modelled by the `Outcome.fatal` constructor; an exception that
  escapes an entry point would be `Outcome.uncaught`.
-/

/-- `VK_SUCCESS` (value 0 of the `VkResult` enum). -/
def VK_SUCCESS : Int := 0

/-- `VK_INCOMPLETE` (value 5 of the `VkResult` enum). -/
def VK_INCOMPLETE : Int := 5

/-- `VK_ERROR_DEVICE_LOST` (value -4 of the `VkResult` enum). -/
def VK_ERROR_DEVICE_LOST : Int := -4

/-- `VK_ERROR_LAYER_NOT_PRESENT` (value -6 of the `VkResult` enum). -/
def VK_ERROR_LAYER_NOT_PRESENT : Int := -6

/-- How a Vulkan entry point of the layer terminates: it either returns a
value to the application, or it dies in a fired `CHECK` (which aborts the
host process), or an exception escapes it (`uncaught`, which no entry point
of `Main.cpp` permits, every body being wrapped in a catch-all). -/
inductive Outcome (α : Type) where
  | ok (a : α)
  | fatal
  | uncaught
deriving DecidableEq, Repr

/-- Embedding of `OrbitResetCommandPool` (Main.cpp:100-109).  The body runs
`CallResetCommandPool` and `PostCallResetCommandPool` inside a `try` block and
returns the forwarded call's result; `catch (const std::exception&)` executes
`CHECK(false)`.  `callThrows` / `postThrows` say whether the respective hook
throws, `driverResult` is what the forwarded driver call returns. -/
def OrbitResetCommandPool (callThrows postThrows : Bool) (driverResult : Int) :
    Outcome Int :=
  if callThrows then Outcome.fatal
  else if postThrows then Outcome.fatal
  else Outcome.ok driverResult

/-- Embedding of `OrbitQueueSubmit` (Main.cpp:189-201).  The body runs
`PreCallQueueSubmit`, forwards via `CallQueueSubmit`, then executes
`CHECK(result == VK_SUCCESS)`, then `PostCallQueueSubmit`, and returns the
forwarded result; `catch (const std::exception&)` executes `CHECK(false)`. -/
def OrbitQueueSubmit (preThrows callThrows postThrows : Bool) (driverResult : Int) :
    Outcome Int :=
  if preThrows then Outcome.fatal
  else if callThrows then Outcome.fatal
  else if driverResult ≠ VK_SUCCESS then Outcome.fatal
  else if postThrows then Outcome.fatal
  else Outcome.ok driverResult

/-- One observable step of `OrbitQueueSubmit`'s body: the pre-submit hook
capturing its correlation token, the forwarded driver call, or the
post-submit hook receiving a token. -/
inductive SubmitStep where
  | preCapture (token : Option Nat)
  | forwardCall (result : Int)
  | postHook (token : Option Nat)
deriving DecidableEq, Repr

/-- Event-level view of `OrbitQueueSubmit` (Main.cpp:189-201) when no hook
throws: `PreCallQueueSubmit` returns the optional pre-submit timestamp
`preToken`, then the call is forwarded, and only if the driver result passes
the `CHECK(result == VK_SUCCESS)` does `PostCallQueueSubmit` run, receiving
`pre_submit_timestamp` unchanged. -/
def OrbitQueueSubmitTrace (preToken : Option Nat) (driverResult : Int) :
    List SubmitStep :=
  [SubmitStep.preCapture preToken, SubmitStep.forwardCall driverResult] ++
    (if driverResult = VK_SUCCESS then [SubmitStep.postHook preToken] else [])

/-- `kLayerName` (Main.cpp:48), as a character list. -/
def kLayerNameChars : List Char := "ORBIT_VK_LAYER".toList

/-- `kLayerDescription` (Main.cpp:49-50), as a character list. -/
def kLayerDescriptionChars : List Char :=
  "Provides GPU insights for the Orbit Profiler".toList

/-- `kLayerImplVersion` (Main.cpp:52). -/
def kLayerImplVersion : Nat := 1

/-- `kLayerSpecVersion = VK_API_VERSION_1_1` (Main.cpp:53); the header macro
expands to `(1 << 22) | (1 << 12) = 4198400`. -/
def kLayerSpecVersion : Nat := 4198400

/-- What `snprintf(dst, size, src)` leaves in `dst` as a C string: at most
`size - 1` characters of `src` followed by the terminator. -/
def snprintfTrunc (size : Nat) (src : List Char) : List Char :=
  src.take (size - 1)

/-- The fields of `VkLayerProperties` written by the layer. -/
structure LayerProps where
  layerName : List Char
  description : List Char
  implementationVersion : Nat
  specVersion : Nat
deriving DecidableEq, Repr

/-- Embedding of `OrbitEnumerateInstanceLayerProperties` (Main.cpp:255-269).
`property_count` is the (possibly null) count out-parameter, modelled by the
value written to it; `properties_present` says whether `properties` is
non-null, and the returned `Option LayerProps` is what gets written there.
Note that both `snprintf` calls are invoked with size `strlen(src)`, which
truncates the last character of each string. -/
def OrbitEnumerateInstanceLayerProperties (property_count : Option Nat)
    (properties_present : Bool) : Int × Option Nat × Option LayerProps :=
  (VK_SUCCESS,
   property_count.map fun _ => 1,
   if properties_present then
     some { layerName := snprintfTrunc kLayerNameChars.length kLayerNameChars,
            description :=
              snprintfTrunc kLayerDescriptionChars.length kLayerDescriptionChars,
            implementationVersion := kLayerImplVersion,
            specVersion := kLayerSpecVersion }
   else none)

/-- Embedding of `OrbitEnumerateDeviceLayerProperties` (Main.cpp:273-278),
which delegates to `OrbitEnumerateInstanceLayerProperties` (the
`physical_device` argument is ignored). -/
def OrbitEnumerateDeviceLayerProperties (property_count : Option Nat)
    (properties_present : Bool) : Int × Option Nat × Option LayerProps :=
  OrbitEnumerateInstanceLayerProperties property_count properties_present

/-- Embedding of `OrbitEnumerateInstanceExtensionProperties`
(Main.cpp:280-295).  If `layer_name` is non-null and equals `kLayerName`, the
function writes 0 through a non-null `property_count` and returns
`VK_SUCCESS`; otherwise it executes `CHECK(false)`, so the trailing
`return VK_ERROR_LAYER_NOT_PRESENT` is dead code. -/
def OrbitEnumerateInstanceExtensionProperties (layer_name : Option (List Char))
    (property_count : Option Nat) : Outcome (Int × Option Nat) :=
  if layer_name = some kLayerNameChars then
    Outcome.ok (VK_SUCCESS, property_count.map fun _ => 0)
  else
    Outcome.fatal

/-- The fields of `VkExtensionProperties` the layer advertises. -/
structure ExtensionProperties where
  extensionName : List Char
  specVersion : Nat
deriving DecidableEq, Repr

/-- `device_extensions` (Main.cpp:55-61): debug marker, debug utils and host
query reset, with the spec versions of the Vulkan headers
(`VK_EXT_DEBUG_MARKER_SPEC_VERSION = 4`, `VK_EXT_DEBUG_UTILS_SPEC_VERSION =
2`, `VK_EXT_HOST_QUERY_RESET_SPEC_VERSION = 1`). -/
def device_extensions : List ExtensionProperties :=
  [{ extensionName := "VK_EXT_debug_marker".toList, specVersion := 4 },
   { extensionName := "VK_EXT_debug_utils".toList, specVersion := 2 },
   { extensionName := "VK_EXT_host_query_reset".toList, specVersion := 1 }]

/-- Embedding of `OrbitEnumerateDeviceExtensionProperties`
(Main.cpp:297-379).  The result triple is (returned `VkResult`, value written
to `*property_count`, extensions copied into `properties`).  `property_count`
is the value `*property_count` holds on entry, `properties_null` says whether
`properties` is null.  The branches for a different or absent `layer_name`
forward down the chain; their result depends on the next layer and is
supplied by the `forward` argument. -/
def OrbitEnumerateDeviceExtensionProperties (layer_name : Option (List Char))
    (property_count : Nat) (properties_null : Bool)
    (forward : Int × Nat × List ExtensionProperties) :
    Int × Nat × List ExtensionProperties :=
  if layer_name = some kLayerNameChars then
    if properties_null then (VK_SUCCESS, device_extensions.length, [])
    else
      let num := if property_count < device_extensions.length then property_count
                 else device_extensions.length
      (if num < device_extensions.length then VK_INCOMPLETE else VK_SUCCESS,
       num, device_extensions.take num)
  else forward

/-!
## Spec-modelled state-tracking core

The implementation files `TimerQueryPool.cpp`, `CommandBufferManager.cpp`,
`QueueManager.cpp` and `LayerLogic.cpp` of this repository are not in the
source tree (only `Main.cpp` is); the definitions below are modelled from the
specification, sections 3, 4.1-4.4.  One device is modelled (pools are
per-device and cross-device operations are independent per the spec).  Raw
GPU tick values and the tick-to-wall-clock conversion are not modelled: the
claims settled here concern slot accounting and event emission, not the
numeric timestamps.
-/

/-- Modelled from the spec: the state of one query slot (section 3,
QuerySlot): `Free`, `Reserved`, `Pending`, `Ready`. -/
inductive SlotState where
  | Free
  | Reserved
  | Pending
  | Ready
deriving DecidableEq, Repr

/-- Modelled from the spec: the missing `TimerQueryPool` — a fixed-size array
of `QuerySlot` states (section 4.2); its capacity is the length of `slots`,
fixed for the pool's lifetime. -/
structure QueryPool where
  slots : List SlotState
deriving DecidableEq, Repr

/-- The state of slot `i` (out-of-range indices read as `Free`, but every
tracked index is in range; see the invariant). -/
def QueryPool.slotAt (p : QueryPool) (i : Nat) : SlotState :=
  p.slots.getD i SlotState.Free

/-- The free list: indices of slots currently `Free`. -/
def QueryPool.freeIndices (p : QueryPool) : List Nat :=
  (List.range p.slots.length).filter fun i => p.slotAt i == SlotState.Free

/-- Set every index of `idxs` to state `s` (out-of-range indices are
ignored, matching `List.set`). -/
def QueryPool.setMany : QueryPool → List Nat → SlotState → QueryPool
  | p, [], _ => p
  | p, i :: is, s => QueryPool.setMany ⟨p.slots.set i s⟩ is s

/-- Modelled from the spec: `Reserve(count)` (section 4.2) — atomically
removes up to `count` indices from the free list, marking them `Reserved`;
returns fewer than requested (down to zero) if the pool is exhausted.  It
never blocks (it is a total function) and never grows the pool. -/
def QueryPool.Reserve (p : QueryPool) (count : Nat) :
    List Nat × QueryPool :=
  let taken := p.freeIndices.take count
  (taken, p.setMany taken SlotState.Reserved)

/-- Modelled from the spec: `MarkPending(indices[])` (section 4.2). -/
def QueryPool.MarkPending (p : QueryPool) (idxs : List Nat) : QueryPool :=
  p.setMany idxs SlotState.Pending

/-- Modelled from the spec: `MarkReady(indices[])` (section 4.2). -/
def QueryPool.MarkReady (p : QueryPool) (idxs : List Nat) : QueryPool :=
  p.setMany idxs SlotState.Ready

/-- Modelled from the spec: `Release(indices[])` (section 4.2). -/
def QueryPool.Release (p : QueryPool) (idxs : List Nat) : QueryPool :=
  p.setMany idxs SlotState.Free

/-- The number of slots of `p` in state `s`. -/
def QueryPool.countState (p : QueryPool) (s : SlotState) : Nat :=
  (p.slots.filter fun t => t == s).length

/-- Modelled from the spec: a command buffer's lifecycle state (section 4.1):
`Initial → Recording → Executable → (Pending ⇄ Executable)`; freed buffers
are removed from tracking. -/
inductive CBState where
  | Initial
  | Recording
  | Executable
  | Pending
deriving DecidableEq, Repr

/-- Modelled from the spec: one labeled region recorded in a command buffer
(section 3, CommandBuffer): a region identifier plus the begin/end query
slots it was assigned, or `none` if the pool was exhausted and the region
was degraded to "unassigned". -/
structure Region where
  regionId : Nat
  slots : Option (Nat × Nat)
deriving DecidableEq, Repr

/-- Modelled from the spec: the per-command-buffer record (section 3):
lifecycle state, ordered slot assignments of the current recording, and the
submission generation counter. -/
structure CmdBuffer where
  state : CBState
  regions : List Region
  generation : Nat
deriving DecidableEq, Repr

/-- Modelled from the spec: the error taxonomy (section 7); `NotFound` is
"treated as ContractViolation". -/
inductive OrbitError where
  | ContractViolation
  | NotFound
deriving DecidableEq, Repr

/-- Modelled from the spec: an emitted timed event (section 3, TimedEvent),
keeping the fields the claims are about: the command buffer, the region
identifier, and the submission generation.  (Device, queue and the two
wall-clock times are carried along in the implementation but play no role in
the emission discipline.) -/
structure TimedEvent where
  buffer : Nat
  regionId : Nat
  generation : Nat
deriving DecidableEq, Repr

/-- Association-list lookup on handle keys (opaque Vulkan handles are plain
identifiers, spec section 9). -/
def lookupA {α : Type} : List (Nat × α) → Nat → Option α
  | [], _ => none
  | (k, v) :: t, q => if k = q then some v else lookupA t q

/-- Replace the value stored under key `h`. -/
def updateA {α : Type} (l : List (Nat × α)) (h : Nat) (v : α) :
    List (Nat × α) :=
  l.map fun p => if p.1 = h then (h, v) else p

/-- Modelled from the spec: the per-device tracking state shared by
`QueryPool`, `CommandBufferTracker` and the `SubmissionCorrelator` (sections
4.1-4.4), plus the log of events handed to the `EventSink` (`emitted`) and
the record of what each submission carried (`submitLog`: command buffer,
generation, and the region ids that held slot assignments at submit time). -/
structure LayerState where
  pool : QueryPool
  buffers : List (Nat × CmdBuffer)
  emitted : List TimedEvent
  submitLog : List (Nat × Nat × List Nat)
deriving DecidableEq, Repr

/-- All slot indices assigned to the given regions. -/
def regionSlots : List Region → List Nat
  | [] => []
  | r :: rs =>
    (match r.slots with
     | some (a, b) => [a, b]
     | none => []) ++ regionSlots rs

/-- The region ids of the regions that actually hold a slot assignment. -/
def assignedIds (rs : List Region) : List Nat :=
  (rs.filter fun r => r.slots.isSome).map fun r => r.regionId

/-- The slot indices currently held by command buffer `h`. -/
def heldSlots (σ : LayerState) (h : Nat) : List Nat :=
  match lookupA σ.buffers h with
  | some cb => regionSlots cb.regions
  | none => []

/-- The slot indices held by any tracked command buffer. -/
def allHeldSlots (σ : LayerState) : List Nat :=
  (σ.buffers.map fun p => regionSlots p.2.regions).flatten

/-- The region ids carried by the events of `l` that concern command buffer
`h` at submission generation `g`, in emission order. -/
def evIds (l : List TimedEvent) (h g : Nat) : List Nat :=
  (l.filter fun e => e.buffer == h && e.generation == g).map fun e => e.regionId

/-- The region ids of the events emitted so far for command buffer `h` at
submission generation `g`, in emission order. -/
def eventsFor (σ : LayerState) (h g : Nat) : List Nat :=
  evIds σ.emitted h g

/-- Modelled from the spec: the calls the graphics API's call contract can
drive into the core (sections 4.1 and 4.4).  `drain` carries the set of
command buffers whose completion signal fired. -/
inductive Op where
  | allocate (hs : List Nat)
  | beginRec (h : Nat)
  | assignRegion (h rid : Nat)
  | endRec (h : Nat)
  | submit (h : Nat)
  | drain (completed : List Nat)
  | reset (h : Nat)
  | free (h : Nat)
deriving DecidableEq, Repr

/-- Modelled from the spec: the completion-and-read-back work `Drain` does
for one command buffer (section 4.4): if it is tracked and `Pending`, its
completion is observed (`Pending → Executable`, its slots marked `Ready`),
its slot-assigned regions are read back and emitted as one `TimedEvent` each
at the buffer's current generation, and the region's slots are released after
read-back (preventing duplicate emission on a later drain).  Buffers that are
not tracked or not `Pending` are skipped. -/
def drainOne (σ : LayerState) (h : Nat) : LayerState :=
  match lookupA σ.buffers h with
  | none => σ
  | some cb =>
    if cb.state = CBState.Pending then
      { pool := (σ.pool.MarkReady (regionSlots cb.regions)).Release
          (regionSlots cb.regions),
        buffers := updateA σ.buffers h
          { cb with state := CBState.Executable,
                    regions := cb.regions.map fun r => { r with slots := none } },
        emitted := σ.emitted ++
          (cb.regions.filter fun r => r.slots.isSome).map fun r =>
            { buffer := h, regionId := r.regionId, generation := cb.generation },
        submitLog := σ.submitLog }
    else σ

/-- Modelled from the spec: one intercepted call acting on the core (sections
4.1-4.4).  A call that violates the state machine or touches an untracked
handle is a contract violation (section 4.1, failure policy) and leaves the
state unchanged; sequences "permitted by the call contract" are exactly those
on which every step returns `Except.ok`.  A freed handle is retired: the
model identifies a command buffer with its handle, so `allocate` requires the
handle to be fresh (untracked and never submitted before). -/
def stepOp (σ : LayerState) : Op → Except OrbitError LayerState
  | Op.allocate hs =>
    if hs.Nodup ∧ ∀ h ∈ hs, lookupA σ.buffers h = none ∧
        ∀ e ∈ σ.submitLog, e.1 ≠ h then
      Except.ok { σ with
        buffers :=
          (hs.map fun h =>
            (h, { state := CBState.Initial, regions := [], generation := 0 }))
          ++ σ.buffers }
    else Except.error OrbitError.ContractViolation
  | Op.beginRec h =>
    match lookupA σ.buffers h with
    | none => Except.error OrbitError.NotFound
    | some cb =>
      if cb.state = CBState.Initial ∨ cb.state = CBState.Executable then
        Except.ok { σ with
          pool := σ.pool.Release (regionSlots cb.regions),
          buffers := updateA σ.buffers h
            { cb with state := CBState.Recording, regions := [] } }
      else Except.error OrbitError.ContractViolation
  | Op.assignRegion h rid =>
    match lookupA σ.buffers h with
    | none => Except.error OrbitError.NotFound
    | some cb =>
      if cb.state = CBState.Recording then
        match σ.pool.Reserve 2 with
        | ([a, b], pool') =>
          Except.ok { σ with
            pool := pool',
            buffers := updateA σ.buffers h
              { cb with regions := cb.regions ++ [⟨rid, some (a, b)⟩] } }
        | (taken, pool') =>
          Except.ok { σ with
            pool := pool'.Release taken,
            buffers := updateA σ.buffers h
              { cb with regions := cb.regions ++ [⟨rid, none⟩] } }
      else Except.error OrbitError.ContractViolation
  | Op.endRec h =>
    match lookupA σ.buffers h with
    | none => Except.error OrbitError.NotFound
    | some cb =>
      if cb.state = CBState.Recording then
        Except.ok { σ with
          buffers := updateA σ.buffers h { cb with state := CBState.Executable } }
      else Except.error OrbitError.ContractViolation
  | Op.submit h =>
    match lookupA σ.buffers h with
    | none => Except.error OrbitError.NotFound
    | some cb =>
      if cb.state = CBState.Executable then
        Except.ok { σ with
          pool := σ.pool.MarkPending (regionSlots cb.regions),
          buffers := updateA σ.buffers h
            { cb with state := CBState.Pending,
                      generation := cb.generation + 1 },
          submitLog :=
            (h, cb.generation + 1, assignedIds cb.regions) :: σ.submitLog }
      else Except.error OrbitError.ContractViolation
  | Op.drain completed =>
    Except.ok (completed.foldl drainOne σ)
  | Op.reset h =>
    match lookupA σ.buffers h with
    | none => Except.error OrbitError.NotFound
    | some cb =>
      if cb.state = CBState.Pending then Except.error OrbitError.ContractViolation
      else
        Except.ok { σ with
          pool := σ.pool.Release (regionSlots cb.regions),
          buffers := updateA σ.buffers h
            { cb with state := CBState.Initial, regions := [] } }
  | Op.free h =>
    match lookupA σ.buffers h with
    | none => Except.error OrbitError.NotFound
    | some cb =>
      if cb.state = CBState.Pending then Except.error OrbitError.ContractViolation
      else
        Except.ok { σ with
          pool := σ.pool.Release (regionSlots cb.regions),
          buffers := σ.buffers.filter fun p => p.1 ≠ h }

/-- Run a sequence of intercepted calls; `none` as soon as one violates the
contract. -/
def runOps (σ : LayerState) : List Op → Option LayerState
  | [] => some σ
  | op :: ops =>
    match stepOp σ op with
    | Except.ok σ' => runOps σ' ops
    | Except.error _ => none

/-- The state at device creation: a pool of `cap` free slots, no tracked
command buffers, nothing emitted. -/
def initState (cap : Nat) : LayerState :=
  { pool := ⟨List.replicate cap SlotState.Free⟩,
    buffers := [], emitted := [], submitLog := [] }

/-- Modelled from the spec: the missing `QueueManager` — the map from each
queue handle to its owning logical device (sections 3 and 4.3). -/
structure QueueRegistry where
  entries : List (Nat × Nat)
deriving DecidableEq, Repr

/-- Modelled from the spec: `DeviceOf(queue)` (section 4.3) — lookup, failing
with `NotFound` before registration. -/
def QueueRegistry.DeviceOf (r : QueueRegistry) (q : Nat) :
    Except OrbitError Nat :=
  match lookupA r.entries q with
  | some d => Except.ok d
  | none => Except.error OrbitError.NotFound

/-- Modelled from the spec: `Register(queue, device)` (section 4.3) —
idempotent; registering a queue already owned by a different device is a
fatal contract violation and the recorded owner is kept. -/
def QueueRegistry.Register (r : QueueRegistry) (q d : Nat) :
    QueueRegistry × Option OrbitError :=
  match lookupA r.entries q with
  | none => ({ entries := (q, d) :: r.entries }, none)
  | some existing =>
    if existing = d then (r, none)
    else (r, some OrbitError.ContractViolation)

/-- Apply a sequence of `Register` calls. -/
def applyRegisters (r : QueueRegistry) (ps : List (Nat × Nat)) : QueueRegistry :=
  ps.foldl (fun acc p => (QueueRegistry.Register acc p.1 p.2).1) r

/-- The pool state every slot held by a command buffer in the given lifecycle
state must be in: `Reserved` while recorded (or merely executable), `Pending`
once submitted.  (`Ready` is transient inside `drainOne`, which releases the
slots it read in the same step.) -/
def ownSlotState : CBState → SlotState
  | CBState.Pending => SlotState.Pending
  | _ => SlotState.Reserved

/-- The consistency invariant of the tracking state, maintained by every
permitted operation: the pool capacity is fixed; tracked handles are unique;
every held slot index is in range and in the pool state matching its owner's
lifecycle state; no slot has two owners; submission-log keys (buffer,
generation) are unique and bounded by the buffer's current generation; a
`Pending` buffer's current generation is logged with its assigned region ids
and has no events yet; and every emitted event belongs to a logged
submission, within which the events emitted so far form a sublist of the
region ids assigned at submit time. -/
structure TrackInv (cap : Nat) (σ : LayerState) : Prop where
  poolLen : σ.pool.slots.length = cap
  keysNodup : (σ.buffers.map Prod.fst).Nodup
  ownedBound : ∀ p ∈ σ.buffers, ∀ i ∈ regionSlots p.2.regions, i < cap
  ownedState : ∀ p ∈ σ.buffers, ∀ i ∈ regionSlots p.2.regions,
    σ.pool.slotAt i = ownSlotState p.2.state
  heldPairwise : ∀ p ∈ σ.buffers, ∀ q ∈ σ.buffers, p.1 ≠ q.1 →
    ∀ i, i ∈ regionSlots p.2.regions → i ∉ regionSlots q.2.regions
  heldOwnNodup : ∀ p ∈ σ.buffers, (regionSlots p.2.regions).Nodup
  logKeysNodup : (σ.submitLog.map fun e => (e.1, e.2.1)).Nodup
  logGenLe : ∀ p ∈ σ.buffers, ∀ e ∈ σ.submitLog, e.1 = p.1 →
    e.2.1 ≤ p.2.generation
  pendingLogged : ∀ p ∈ σ.buffers, p.2.state = CBState.Pending →
    (p.1, p.2.generation, assignedIds p.2.regions) ∈ σ.submitLog ∧
    evIds σ.emitted p.1 p.2.generation = []
  eventsLogged : ∀ e ∈ σ.emitted, ∃ rs, (e.buffer, e.generation, rs) ∈ σ.submitLog
  eventsSub : ∀ lg ∈ σ.submitLog,
    List.Sublist (evIds σ.emitted lg.1 lg.2.1) lg.2.2

/-- The capacity-4 exhaustion scenario of the spec (section 8): one command
buffer records three regions (6 slots needed from 4), is submitted, and is
drained twice. -/
def c6ScenarioOps : List Op :=
  [Op.allocate [0], Op.beginRec 0, Op.assignRegion 0 1, Op.assignRegion 0 2,
   Op.assignRegion 0 3, Op.endRec 0, Op.submit 0, Op.drain [0], Op.drain [0]]

/-- A small permitted call sequence: one buffer records one region, is
submitted and drained. -/
def c5WitnessOps : List Op :=
  [Op.allocate [0], Op.beginRec 0, Op.assignRegion 0 5, Op.endRec 0,
   Op.submit 0, Op.drain [0]]

/-- The state `c5WitnessOps` reaches from `initState 2`. -/
def c5WitnessState : LayerState :=
  { pool := ⟨[SlotState.Free, SlotState.Free]⟩,
    buffers := [(0, ⟨CBState.Executable, [⟨5, none⟩], 1⟩)],
    emitted := [⟨0, 5, 1⟩],
    submitLog := [(0, 1, [5])] }

/-- The state `[Op.allocate [0]]` reaches from `initState 2`. -/
def c3WitnessState : LayerState :=
  { pool := ⟨[SlotState.Free, SlotState.Free]⟩,
    buffers := [(0, ⟨CBState.Initial, [], 0⟩)],
    emitted := [], submitLog := [] }

/-!
## Basic lemmas: list access, pool primitives, association lists
-/

theorem getD_set_eq {α : Type} (l : List α) (i : Nat) (a d : α)
    (h : i < l.length) : (l.set i a).getD i d = a := by
  rw [List.getD_eq_getElem?_getD, List.getElem?_set_self h]
  rfl

theorem getD_set_ne {α : Type} (l : List α) (i j : Nat) (a d : α)
    (h : i ≠ j) : (l.set i a).getD j d = l.getD j d := by
  rw [List.getD_eq_getElem?_getD, List.getElem?_set_ne h,
    ← List.getD_eq_getElem?_getD]

theorem length_setMany (idxs : List Nat) (p : QueryPool) (s : SlotState) :
    (p.setMany idxs s).slots.length = p.slots.length := by
  induction idxs generalizing p with
  | nil => rfl
  | cons i is ih =>
    rw [QueryPool.setMany, ih]
    exact List.length_set ..

theorem slotAt_setMany_not_mem (idxs : List Nat) (p : QueryPool)
    (s : SlotState) (i : Nat) (h : i ∉ idxs) :
    (p.setMany idxs s).slotAt i = p.slotAt i := by
  induction idxs generalizing p with
  | nil => rfl
  | cons j js ih =>
    simp only [List.mem_cons, not_or] at h
    rw [QueryPool.setMany, ih _ h.2]
    exact getD_set_ne _ _ _ _ _ fun hji => h.1 hji.symm

theorem slotAt_setMany_mem (idxs : List Nat) (p : QueryPool) (s : SlotState)
    (i : Nat) (hmem : i ∈ idxs) (hlt : i < p.slots.length) :
    (p.setMany idxs s).slotAt i = s := by
  induction idxs generalizing p with
  | nil => cases hmem
  | cons j js ih =>
    rw [QueryPool.setMany]
    by_cases hj : i ∈ js
    · exact ih _ hj (by rw [List.length_set]; exact hlt)
    · have hij : i = j := by
        rcases List.mem_cons.mp hmem with h | h
        · exact h
        · exact absurd h hj
      rw [slotAt_setMany_not_mem _ _ _ _ hj]
      subst hij
      exact getD_set_eq _ _ _ _ hlt

theorem mem_freeIndices (p : QueryPool) (i : Nat) :
    i ∈ p.freeIndices ↔ i < p.slots.length ∧ p.slotAt i = SlotState.Free := by
  simp [QueryPool.freeIndices, List.mem_filter, List.mem_range]

theorem nodup_freeIndices (p : QueryPool) : p.freeIndices.Nodup :=
  (List.filter_sublist _).nodup (List.nodup_range _)

theorem reserve_length (p : QueryPool) (n : Nat) :
    (p.Reserve n).1.length = min n p.freeIndices.length := by
  simp [QueryPool.Reserve]

theorem reserve_sublist (p : QueryPool) (n : Nat) :
    (p.Reserve n).1.Sublist p.freeIndices :=
  List.take_sublist ..

theorem reserve_pool_length (p : QueryPool) (n : Nat) :
    (p.Reserve n).2.slots.length = p.slots.length :=
  length_setMany ..

theorem slotCount_partition (l : List SlotState) :
    (l.filter fun t => t == SlotState.Free).length +
      (l.filter fun t => t == SlotState.Reserved).length +
      (l.filter fun t => t == SlotState.Pending).length +
      (l.filter fun t => t == SlotState.Ready).length = l.length := by
  induction l with
  | nil => rfl
  | cons a t ih => cases a <;> simp [List.filter_cons] <;> omega

theorem countState_partition (p : QueryPool) :
    p.countState SlotState.Free + p.countState SlotState.Reserved +
      p.countState SlotState.Pending + p.countState SlotState.Ready =
      p.slots.length :=
  slotCount_partition p.slots

theorem regionSlots_append (rs ts : List Region) :
    regionSlots (rs ++ ts) = regionSlots rs ++ regionSlots ts := by
  induction rs with
  | nil => rfl
  | cons r rs ih => simp [regionSlots, ih]

theorem regionSlots_clear (rs : List Region) :
    regionSlots (rs.map fun r => { r with slots := none }) = [] := by
  induction rs with
  | nil => rfl
  | cons r rs ih => simpa [regionSlots] using ih

theorem mem_regionSlots (rs : List Region) (i : Nat) :
    i ∈ regionSlots rs ↔
      ∃ r ∈ rs, ∃ a b, r.slots = some (a, b) ∧ (i = a ∨ i = b) := by
  induction rs with
  | nil => simp [regionSlots]
  | cons r rs ih =>
    cases hr : r.slots with
    | none =>
      simp only [regionSlots, hr, List.nil_append, ih, List.mem_cons]
      constructor
      · rintro ⟨r', hr', hp⟩
        exact ⟨r', Or.inr hr', hp⟩
      · rintro ⟨r', hr' | hr', a, b, hab, hi⟩
        · subst hr'
          rw [hr] at hab
          cases hab
        · exact ⟨r', hr', a, b, hab, hi⟩
    | some ab =>
      obtain ⟨a, b⟩ := ab
      simp only [regionSlots, hr, List.mem_cons, List.mem_append, ih]
      constructor
      · rintro (hi | ⟨r', hr', hp⟩)
        · refine ⟨r, Or.inl rfl, a, b, hr, ?_⟩
          simpa using hi
        · exact ⟨r', Or.inr hr', hp⟩
      · rintro ⟨r', hr' | hr', a', b', hab, hi⟩
        · subst hr'
          rw [hr] at hab
          cases hab
          left
          simpa using hi
        · exact Or.inr ⟨r', hr', a', b', hab, hi⟩

theorem lookupA_mem {α : Type} (l : List (Nat × α)) (h : Nat) (v : α)
    (hl : lookupA l h = some v) : (h, v) ∈ l := by
  induction l with
  | nil => cases hl
  | cons p t ih =>
    obtain ⟨k, w⟩ := p
    by_cases hk : k = h
    · subst hk
      rw [lookupA, if_pos rfl] at hl
      cases hl
      exact List.mem_cons_self ..
    · rw [lookupA, if_neg hk] at hl
      exact List.mem_cons_of_mem _ (ih hl)

theorem lookupA_none_not_mem {α : Type} (l : List (Nat × α)) (h : Nat)
    (hl : lookupA l h = none) (v : α) : (h, v) ∉ l := by
  induction l with
  | nil => exact List.not_mem_nil _
  | cons p t ih =>
    obtain ⟨k, w⟩ := p
    by_cases hk : k = h
    · subst hk
      rw [lookupA, if_pos rfl] at hl
      cases hl
    · rw [lookupA, if_neg hk] at hl
      intro hmem
      rcases List.mem_cons.mp hmem with he | he
      · cases he
        exact hk rfl
      · exact ih hl he

theorem lookupA_updateA_self {α : Type} (l : List (Nat × α)) (h : Nat)
    (w : α) : lookupA (updateA l h w) h = (lookupA l h).map fun _ => w := by
  induction l with
  | nil => rfl
  | cons p t ih =>
    obtain ⟨k, v⟩ := p
    show lookupA ((if k = h then (h, w) else (k, v)) :: updateA t h w) h =
      (if k = h then some v else lookupA t h).map fun _ => w
    by_cases hk : k = h
    · rw [if_pos hk, if_pos hk]
      show (if h = h then some w else lookupA (updateA t h w) h) = _
      rw [if_pos rfl]
      rfl
    · rw [if_neg hk, if_neg hk]
      show (if k = h then some v else lookupA (updateA t h w) h) = _
      rw [if_neg hk]
      exact ih

theorem lookupA_updateA_ne {α : Type} (l : List (Nat × α)) (h h' : Nat)
    (w : α) (hne : h' ≠ h) :
    lookupA (updateA l h w) h' = lookupA l h' := by
  induction l with
  | nil => rfl
  | cons p t ih =>
    obtain ⟨k, v⟩ := p
    show lookupA ((if k = h then (h, w) else (k, v)) :: updateA t h w) h' =
      (if k = h' then some v else lookupA t h')
    by_cases hk : k = h
    · rw [if_pos hk]
      show (if h = h' then some w else lookupA (updateA t h w) h') = _
      rw [if_neg fun he => hne he.symm, if_neg fun he => hne (he.symm.trans hk)]
      exact ih
    · rw [if_neg hk]
      show (if k = h' then some v else lookupA (updateA t h w) h') = _
      by_cases hk' : k = h'
      · rw [if_pos hk', if_pos hk']
      · rw [if_neg hk', if_neg hk']
        exact ih

theorem keys_updateA {α : Type} (l : List (Nat × α)) (h : Nat) (w : α) :
    (updateA l h w).map Prod.fst = l.map Prod.fst := by
  induction l with
  | nil => rfl
  | cons p t ih =>
    obtain ⟨k, v⟩ := p
    show (if k = h then (h, w) else (k, v)).1 :: (updateA t h w).map Prod.fst =
      k :: t.map Prod.fst
    by_cases hk : k = h
    · subst hk
      rw [if_pos rfl, ih]
    · rw [if_neg hk, ih]

theorem mem_updateA {α : Type} {l : List (Nat × α)} {h : Nat} {w : α}
    {p : Nat × α} (hp : p ∈ updateA l h w) :
    p = (h, w) ∨ (p ∈ l ∧ p.1 ≠ h) := by
  rw [updateA, List.mem_map] at hp
  obtain ⟨q, hq, he⟩ := hp
  by_cases hk : q.1 = h
  · left
    rw [if_pos hk] at he
    exact he.symm
  · right
    rw [if_neg hk] at he
    subst he
    exact ⟨hq, hk⟩

theorem lookupA_filter_self {α : Type} (l : List (Nat × α)) (h : Nat) :
    lookupA (l.filter fun p => p.1 ≠ h) h = none := by
  induction l with
  | nil => rfl
  | cons p t ih =>
    obtain ⟨k, v⟩ := p
    by_cases hk : k = h
    · subst hk
      simpa using ih
    · simpa [List.filter_cons, hk, lookupA] using ih

/-!
## Lemmas about events, keys and ownership
-/

theorem ownSlotState_ne_free (s : CBState) : ownSlotState s ≠ SlotState.Free := by
  cases s <;> simp [ownSlotState]

theorem evIds_append (l t : List TimedEvent) (h g : Nat) :
    evIds (l ++ t) h g = evIds l h g ++ evIds t h g := by
  simp [evIds, List.filter_append]

theorem evIds_emit_self (rs : List Region) (h g : Nat) :
    evIds ((rs.filter fun r => r.slots.isSome).map fun r =>
        { buffer := h, regionId := r.regionId, generation := g }) h g =
      assignedIds rs := by
  rw [assignedIds]
  induction rs.filter fun r => r.slots.isSome with
  | nil => rfl
  | cons r t ih => simpa [evIds, List.filter_cons] using ih

theorem evIds_emit_ne (rs : List Region) (h g h' g' : Nat)
    (hne : h' ≠ h ∨ g' ≠ g) :
    evIds ((rs.filter fun r => r.slots.isSome).map fun r =>
        { buffer := h, regionId := r.regionId, generation := g }) h' g' = [] := by
  rw [evIds, List.filter_eq_nil_iff.mpr, List.map_nil]
  intro e he
  rw [List.mem_map] at he
  obtain ⟨r, _, hr⟩ := he
  subst hr
  simp only [Bool.and_eq_true, beq_iff_eq]
  rintro ⟨he1, he2⟩
  rcases hne with hne | hne
  · exact hne he1.symm
  · exact hne he2.symm

theorem evIds_eq_nil_of_lt (l : List TimedEvent) (h G g : Nat)
    (hb : ∀ e ∈ l, e.buffer = h → e.generation ≤ G) (hg : G < g) :
    evIds l h g = [] := by
  rw [evIds, List.filter_eq_nil_iff.mpr, List.map_nil]
  intro e he
  simp only [Bool.and_eq_true, beq_iff_eq]
  rintro ⟨he1, he2⟩
  exact absurd (he2 ▸ hb e he he1) (Nat.not_le_of_lt hg)

theorem key_eq_of_nodup {α : Type} {bs : List (Nat × α)} {p q : Nat × α}
    (hnd : (bs.map Prod.fst).Nodup) (hp : p ∈ bs) (hq : q ∈ bs)
    (hkey : p.1 = q.1) : p = q := by
  by_contra hne
  have hpw : List.Pairwise (fun a b : Nat × α => a.1 ≠ b.1) bs :=
    List.pairwise_map.mp hnd
  have hsymm : Symmetric fun a b : Nat × α => a.1 ≠ b.1 :=
    fun a b hab he => hab he.symm
  exact hpw.forall hsymm hp hq hne hkey

theorem mem_updateA_self {α : Type} {l : List (Nat × α)} {h : Nat} {v w : α}
    (hl : lookupA l h = some v) : (h, w) ∈ updateA l h w := by
  apply lookupA_mem
  rw [lookupA_updateA_self, hl]
  rfl

theorem heldPairwise_updateA {bs : List (Nat × CmdBuffer)} {h : Nat}
    {cb newcb : CmdBuffer}
    (hcb : lookupA bs h = some cb)
    (hP : ∀ p ∈ bs, ∀ q ∈ bs, p.1 ≠ q.1 →
      ∀ i, i ∈ regionSlots p.2.regions → i ∉ regionSlots q.2.regions)
    (hnew : ∀ i, i ∈ regionSlots newcb.regions →
      i ∈ regionSlots cb.regions ∨ ∀ q ∈ bs, i ∉ regionSlots q.2.regions) :
    ∀ p ∈ updateA bs h newcb, ∀ q ∈ updateA bs h newcb, p.1 ≠ q.1 →
      ∀ i, i ∈ regionSlots p.2.regions → i ∉ regionSlots q.2.regions := by
  have hmemcb : (h, cb) ∈ bs := lookupA_mem _ _ _ hcb
  intro p hp q hq hne i hip
  rcases mem_updateA hp with hp' | ⟨hp', hpne⟩ <;>
    rcases mem_updateA hq with hq' | ⟨hq', hqne⟩
  · subst hp'
    subst hq'
    exact absurd rfl hne
  · subst hp'
    rcases hnew i hip with hi | hi
    · exact hP (h, cb) hmemcb q hq' hne i hi
    · exact hi q hq'
  · subst hq'
    intro hiq
    rcases hnew i hiq with hi | hi
    · exact hP p hp' (h, cb) hmemcb hne i hip hi
    · exact hi p hp' hip
  · exact hP p hp' q hq' hne i hip

/-!
## Preservation of the tracking invariant, operation by operation
-/

theorem ownedNotFree {cap : Nat} {σ : LayerState} (hInv : TrackInv cap σ) :
    ∀ p ∈ σ.buffers, ∀ i ∈ regionSlots p.2.regions,
      σ.pool.slotAt i ≠ SlotState.Free := by
  intro p hp i hi
  rw [hInv.ownedState p hp i hi]
  exact ownSlotState_ne_free _

theorem inv_allocate {cap : Nat} {σ : LayerState} {hs : List Nat}
    (hnd : hs.Nodup)
    (hfresh : ∀ h ∈ hs, lookupA σ.buffers h = none ∧ ∀ e ∈ σ.submitLog, e.1 ≠ h)
    (hInv : TrackInv cap σ) :
    TrackInv cap { σ with buffers :=
      (hs.map fun h =>
        (h, { state := CBState.Initial, regions := [], generation := 0 }))
      ++ σ.buffers } := by
  have hsplit : ∀ p : Nat × CmdBuffer,
      p ∈ (hs.map fun h =>
        (h, ({ state := CBState.Initial, regions := [], generation := 0 }
          : CmdBuffer))) ++ σ.buffers →
      (p.2 = { state := CBState.Initial, regions := [], generation := 0 } ∧
        p.1 ∈ hs) ∨ p ∈ σ.buffers := by
    intro p hp
    rcases List.mem_append.mp hp with hp | hp
    · rw [List.mem_map] at hp
      obtain ⟨a, ha, he⟩ := hp
      subst he
      exact Or.inl ⟨rfl, ha⟩
    · exact Or.inr hp
  constructor
  case poolLen => exact hInv.poolLen
  case keysNodup =>
    show ((_ ++ σ.buffers).map Prod.fst).Nodup
    rw [List.map_append, List.map_map]
    rw [show (Prod.fst ∘ fun h : Nat =>
      (h, ({ state := CBState.Initial, regions := [], generation := 0 }
        : CmdBuffer))) = id from rfl, List.map_id]
    refine List.Nodup.append hnd hInv.keysNodup ?_
    intro a ha hmem
    rw [List.mem_map] at hmem
    obtain ⟨p, hp, he⟩ := hmem
    have := lookupA_none_not_mem _ _ (hfresh a ha).1 p.2
    subst he
    exact this hp
  case ownedBound =>
    intro p hp i hi
    rcases hsplit p hp with ⟨h2, _⟩ | hp'
    · rw [h2] at hi
      simp [regionSlots] at hi
    · exact hInv.ownedBound p hp' i hi
  case ownedState =>
    intro p hp i hi
    rcases hsplit p hp with ⟨h2, _⟩ | hp'
    · rw [h2] at hi
      simp [regionSlots] at hi
    · exact hInv.ownedState p hp' i hi
  case heldPairwise =>
    intro p hp q hq hne i hip
    rcases hsplit p hp with ⟨h2, _⟩ | hp'
    · rw [h2] at hip
      simp [regionSlots] at hip
    · rcases hsplit q hq with ⟨h2, _⟩ | hq'
      · rw [h2]
        simp [regionSlots]
      · exact hInv.heldPairwise p hp' q hq' hne i hip
  case heldOwnNodup =>
    intro p hp
    rcases hsplit p hp with ⟨h2, _⟩ | hp'
    · rw [h2]
      exact List.nodup_nil
    · exact hInv.heldOwnNodup p hp'
  case logKeysNodup => exact hInv.logKeysNodup
  case logGenLe =>
    intro p hp e he hkey
    rcases hsplit p hp with ⟨_, hin⟩ | hp'
    · exact absurd hkey ((hfresh p.1 hin).2 e he)
    · exact hInv.logGenLe p hp' e he hkey
  case pendingLogged =>
    intro p hp hpend
    rcases hsplit p hp with ⟨h2, _⟩ | hp'
    · rw [h2] at hpend
      simp at hpend
    · exact hInv.pendingLogged p hp' hpend
  case eventsLogged => exact hInv.eventsLogged
  case eventsSub => exact hInv.eventsSub

theorem inv_clearRelease {cap : Nat} {σ : LayerState} {h : Nat}
    {cb : CmdBuffer} (s : CBState) (hsp : s ≠ CBState.Pending)
    (hcb : lookupA σ.buffers h = some cb) (hInv : TrackInv cap σ) :
    TrackInv cap { σ with
      pool := σ.pool.Release (regionSlots cb.regions),
      buffers := updateA σ.buffers h
        { cb with state := s, regions := [] } } := by
  have hmemcb : (h, cb) ∈ σ.buffers := lookupA_mem _ _ _ hcb
  constructor
  case poolLen => exact (length_setMany ..).trans hInv.poolLen
  case keysNodup =>
    show ((updateA σ.buffers h _).map Prod.fst).Nodup
    rw [keys_updateA]
    exact hInv.keysNodup
  case ownedBound =>
    intro p hp i hi
    rcases mem_updateA hp with hp' | ⟨hp', _⟩
    · subst hp'
      cases hi
    · exact hInv.ownedBound p hp' i hi
  case ownedState =>
    intro p hp i hi
    rcases mem_updateA hp with hp' | ⟨hp', hpne⟩
    · subst hp'
      cases hi
    · have hnotin : i ∉ regionSlots cb.regions :=
        hInv.heldPairwise p hp' (h, cb) hmemcb hpne i hi
      show (σ.pool.setMany _ _).slotAt i = _
      rw [slotAt_setMany_not_mem _ _ _ _ hnotin]
      exact hInv.ownedState p hp' i hi
  case heldPairwise =>
    refine heldPairwise_updateA hcb hInv.heldPairwise ?_
    intro i hi
    cases hi
  case heldOwnNodup =>
    intro p hp
    rcases mem_updateA hp with hp' | ⟨hp', _⟩
    · subst hp'
      exact List.nodup_nil
    · exact hInv.heldOwnNodup p hp'
  case logKeysNodup => exact hInv.logKeysNodup
  case logGenLe =>
    intro p hp e he hkey
    rcases mem_updateA hp with hp' | ⟨hp', _⟩
    · subst hp'
      exact hInv.logGenLe (h, cb) hmemcb e he hkey
    · exact hInv.logGenLe p hp' e he hkey
  case pendingLogged =>
    intro p hp hpend
    rcases mem_updateA hp with hp' | ⟨hp', _⟩
    · subst hp'
      exact absurd hpend hsp
    · exact hInv.pendingLogged p hp' hpend
  case eventsLogged => exact hInv.eventsLogged
  case eventsSub => exact hInv.eventsSub

theorem inv_endRec {cap : Nat} {σ : LayerState} {h : Nat} {cb : CmdBuffer}
    (hcb : lookupA σ.buffers h = some cb)
    (hst : cb.state = CBState.Recording) (hInv : TrackInv cap σ) :
    TrackInv cap { σ with
      buffers := updateA σ.buffers h
        { cb with state := CBState.Executable } } := by
  have hmemcb : (h, cb) ∈ σ.buffers := lookupA_mem _ _ _ hcb
  constructor
  case poolLen => exact hInv.poolLen
  case keysNodup =>
    show ((updateA σ.buffers h _).map Prod.fst).Nodup
    rw [keys_updateA]
    exact hInv.keysNodup
  case ownedBound =>
    intro p hp i hi
    rcases mem_updateA hp with hp' | ⟨hp', _⟩
    · subst hp'
      exact hInv.ownedBound (h, cb) hmemcb i hi
    · exact hInv.ownedBound p hp' i hi
  case ownedState =>
    intro p hp i hi
    rcases mem_updateA hp with hp' | ⟨hp', _⟩
    · subst hp'
      rw [hInv.ownedState (h, cb) hmemcb i hi, hst]
      rfl
    · exact hInv.ownedState p hp' i hi
  case heldPairwise =>
    refine heldPairwise_updateA hcb hInv.heldPairwise ?_
    intro i hi
    exact Or.inl hi
  case heldOwnNodup =>
    intro p hp
    rcases mem_updateA hp with hp' | ⟨hp', _⟩
    · subst hp'
      exact hInv.heldOwnNodup (h, cb) hmemcb
    · exact hInv.heldOwnNodup p hp'
  case logKeysNodup => exact hInv.logKeysNodup
  case logGenLe =>
    intro p hp e he hkey
    rcases mem_updateA hp with hp' | ⟨hp', _⟩
    · subst hp'
      exact hInv.logGenLe (h, cb) hmemcb e he hkey
    · exact hInv.logGenLe p hp' e he hkey
  case pendingLogged =>
    intro p hp hpend
    rcases mem_updateA hp with hp' | ⟨hp', _⟩
    · subst hp'
      cases hpend
    · exact hInv.pendingLogged p hp' hpend
  case eventsLogged => exact hInv.eventsLogged
  case eventsSub => exact hInv.eventsSub

theorem inv_free {cap : Nat} {σ : LayerState} {h : Nat} {cb : CmdBuffer}
    (hcb : lookupA σ.buffers h = some cb) (hInv : TrackInv cap σ) :
    TrackInv cap { σ with
      pool := σ.pool.Release (regionSlots cb.regions),
      buffers := σ.buffers.filter fun p => p.1 ≠ h } := by
  have hmemcb : (h, cb) ∈ σ.buffers := lookupA_mem _ _ _ hcb
  have hmemf : ∀ p : Nat × CmdBuffer,
      p ∈ σ.buffers.filter (fun p => p.1 ≠ h) → p ∈ σ.buffers ∧ p.1 ≠ h := by
    intro p hp
    rw [List.mem_filter] at hp
    exact ⟨hp.1, of_decide_eq_true hp.2⟩
  constructor
  case poolLen => exact (length_setMany ..).trans hInv.poolLen
  case keysNodup =>
    exact ((List.filter_sublist _).map Prod.fst).nodup hInv.keysNodup
  case ownedBound =>
    intro p hp i hi
    exact hInv.ownedBound p (hmemf p hp).1 i hi
  case ownedState =>
    intro p hp i hi
    obtain ⟨hp', hpne⟩ := hmemf p hp
    have hnotin : i ∉ regionSlots cb.regions :=
      hInv.heldPairwise p hp' (h, cb) hmemcb hpne i hi
    show (σ.pool.setMany _ _).slotAt i = _
    rw [slotAt_setMany_not_mem _ _ _ _ hnotin]
    exact hInv.ownedState p hp' i hi
  case heldPairwise =>
    intro p hp q hq hne i hip
    exact hInv.heldPairwise p (hmemf p hp).1 q (hmemf q hq).1 hne i hip
  case heldOwnNodup =>
    intro p hp
    exact hInv.heldOwnNodup p (hmemf p hp).1
  case logKeysNodup => exact hInv.logKeysNodup
  case logGenLe =>
    intro p hp e he hkey
    exact hInv.logGenLe p (hmemf p hp).1 e he hkey
  case pendingLogged =>
    intro p hp hpend
    exact hInv.pendingLogged p (hmemf p hp).1 hpend
  case eventsLogged => exact hInv.eventsLogged
  case eventsSub => exact hInv.eventsSub

theorem inv_submit {cap : Nat} {σ : LayerState} {h : Nat} {cb : CmdBuffer}
    (hcb : lookupA σ.buffers h = some cb) (hInv : TrackInv cap σ) :
    TrackInv cap { σ with
      pool := σ.pool.MarkPending (regionSlots cb.regions),
      buffers := updateA σ.buffers h
        { cb with state := CBState.Pending, generation := cb.generation + 1 },
      submitLog :=
        (h, cb.generation + 1, assignedIds cb.regions) :: σ.submitLog } := by
  have hmemcb : (h, cb) ∈ σ.buffers := lookupA_mem _ _ _ hcb
  have hbound : ∀ e ∈ σ.emitted, e.buffer = h → e.generation ≤ cb.generation := by
    intro e he hb
    obtain ⟨rs, hrs⟩ := hInv.eventsLogged e he
    exact hInv.logGenLe (h, cb) hmemcb (e.buffer, e.generation, rs) hrs hb
  have hnil : evIds σ.emitted h (cb.generation + 1) = [] :=
    evIds_eq_nil_of_lt σ.emitted h cb.generation (cb.generation + 1) hbound
      (Nat.lt_succ_self _)
  constructor
  case poolLen => exact (length_setMany ..).trans hInv.poolLen
  case keysNodup =>
    show ((updateA σ.buffers h _).map Prod.fst).Nodup
    rw [keys_updateA]
    exact hInv.keysNodup
  case ownedBound =>
    intro p hp i hi
    rcases mem_updateA hp with hp' | ⟨hp', _⟩
    · subst hp'
      exact hInv.ownedBound (h, cb) hmemcb i hi
    · exact hInv.ownedBound p hp' i hi
  case ownedState =>
    intro p hp i hi
    rcases mem_updateA hp with hp' | ⟨hp', hpne⟩
    · subst hp'
      have hlt : i < σ.pool.slots.length := by
        rw [hInv.poolLen]
        exact hInv.ownedBound (h, cb) hmemcb i hi
      show (σ.pool.setMany _ _).slotAt i = _
      rw [slotAt_setMany_mem _ _ _ _ hi hlt]
      rfl
    · have hnotin : i ∉ regionSlots cb.regions :=
        hInv.heldPairwise p hp' (h, cb) hmemcb hpne i hi
      show (σ.pool.setMany _ _).slotAt i = _
      rw [slotAt_setMany_not_mem _ _ _ _ hnotin]
      exact hInv.ownedState p hp' i hi
  case heldPairwise =>
    refine heldPairwise_updateA hcb hInv.heldPairwise ?_
    intro i hi
    exact Or.inl hi
  case heldOwnNodup =>
    intro p hp
    rcases mem_updateA hp with hp' | ⟨hp', _⟩
    · subst hp'
      exact hInv.heldOwnNodup (h, cb) hmemcb
    · exact hInv.heldOwnNodup p hp'
  case logKeysNodup =>
    show ((h, cb.generation + 1) :: σ.submitLog.map fun e => (e.1, e.2.1)).Nodup
    rw [List.nodup_cons]
    refine ⟨?_, hInv.logKeysNodup⟩
    intro hmem
    rw [List.mem_map] at hmem
    obtain ⟨e, he, hee⟩ := hmem
    have h1 : e.1 = h := congrArg Prod.fst hee
    have h2 : e.2.1 = cb.generation + 1 := congrArg Prod.snd hee
    have := hInv.logGenLe (h, cb) hmemcb e he h1
    rw [show ((h, cb) : Nat × CmdBuffer).2 = cb from rfl] at this
    omega
  case logGenLe =>
    intro p hp e he hkey
    rcases mem_updateA hp with hp' | ⟨hp', hpne⟩
    · subst hp'
      rcases List.mem_cons.mp he with he' | he'
      · subst he'
        exact Nat.le_refl _
      · exact Nat.le_succ_of_le (hInv.logGenLe (h, cb) hmemcb e he' hkey)
    · rcases List.mem_cons.mp he with he' | he'
      · subst he'
        exact absurd hkey hpne.symm
      · exact hInv.logGenLe p hp' e he' hkey
  case pendingLogged =>
    intro p hp hpend
    rcases mem_updateA hp with hp' | ⟨hp', hpne⟩
    · subst hp'
      exact ⟨List.mem_cons_self .., hnil⟩
    · obtain ⟨hlog, hev⟩ := hInv.pendingLogged p hp' hpend
      exact ⟨List.mem_cons_of_mem _ hlog, hev⟩
  case eventsLogged =>
    intro e he
    obtain ⟨rs, hrs⟩ := hInv.eventsLogged e he
    exact ⟨rs, List.mem_cons_of_mem _ hrs⟩
  case eventsSub =>
    intro lg hlg
    rcases List.mem_cons.mp hlg with hlg' | hlg'
    · subst hlg'
      rw [hnil]
      exact List.nil_sublist _
    · exact hInv.eventsSub lg hlg'


theorem inv_assignTwo {cap : Nat} {σ : LayerState} {h rid a b : Nat}
    {cb : CmdBuffer} (hcb : lookupA σ.buffers h = some cb)
    (hst : cb.state = CBState.Recording)
    (hta : σ.pool.freeIndices.take 2 = [a, b]) (hInv : TrackInv cap σ) :
    TrackInv cap { σ with
      pool := σ.pool.setMany [a, b] SlotState.Reserved,
      buffers := updateA σ.buffers h
        { cb with regions := cb.regions ++ [⟨rid, some (a, b)⟩] } } := by
  have hmemcb : (h, cb) ∈ σ.buffers := lookupA_mem _ _ _ hcb
  have hfree : ∀ i ∈ [a, b], i < σ.pool.slots.length ∧
      σ.pool.slotAt i = SlotState.Free := by
    intro i hi
    have hin : i ∈ σ.pool.freeIndices := by
      refine List.Sublist.mem ?_ (List.take_sublist 2 _)
      rw [hta]
      exact hi
    exact (mem_freeIndices _ _).mp hin
  have hnotheld : ∀ i ∈ [a, b], ∀ q ∈ σ.buffers,
      i ∉ regionSlots q.2.regions := by
    intro i hi q hq hmem
    exact ownedNotFree hInv q hq i hmem (hfree i hi).2
  have habnd : ([a, b] : List Nat).Nodup := by
    rw [← hta]
    exact (List.take_sublist 2 _).nodup (nodup_freeIndices _)
  have hsplitrs : regionSlots (cb.regions ++ [⟨rid, some (a, b)⟩]) =
      regionSlots cb.regions ++ [a, b] := by
    rw [regionSlots_append]
    rfl
  constructor
  case poolLen => exact (length_setMany ..).trans hInv.poolLen
  case keysNodup =>
    show ((updateA σ.buffers h _).map Prod.fst).Nodup
    rw [keys_updateA]
    exact hInv.keysNodup
  case ownedBound =>
    intro p hp i hi
    rcases mem_updateA hp with hp' | ⟨hp', _⟩
    · subst hp'
      rw [hsplitrs] at hi
      rcases List.mem_append.mp hi with hi' | hi'
      · exact hInv.ownedBound (h, cb) hmemcb i hi'
      · rw [← hInv.poolLen]
        exact (hfree i hi').1
    · exact hInv.ownedBound p hp' i hi
  case ownedState =>
    intro p hp i hi
    rcases mem_updateA hp with hp' | ⟨hp', hpne⟩
    · subst hp'
      rw [hsplitrs] at hi
      rcases List.mem_append.mp hi with hi' | hi'
      · have hnotin : i ∉ ([a, b] : List Nat) := by
          intro hiab
          exact hnotheld i hiab (h, cb) hmemcb hi'
        show (σ.pool.setMany _ _).slotAt i = _
        rw [slotAt_setMany_not_mem _ _ _ _ hnotin]
        exact hInv.ownedState (h, cb) hmemcb i hi'
      · show (σ.pool.setMany _ _).slotAt i = _
        rw [slotAt_setMany_mem _ _ _ _ hi' (hfree i hi').1, hst]
        rfl
    · have hnotin : i ∉ ([a, b] : List Nat) := by
        intro hiab
        exact hnotheld i hiab p hp' hi
      show (σ.pool.setMany _ _).slotAt i = _
      rw [slotAt_setMany_not_mem _ _ _ _ hnotin]
      exact hInv.ownedState p hp' i hi
  case heldPairwise =>
    refine heldPairwise_updateA hcb hInv.heldPairwise ?_
    intro i hi
    rw [hsplitrs] at hi
    rcases List.mem_append.mp hi with hi' | hi'
    · exact Or.inl hi'
    · exact Or.inr fun q hq => hnotheld i hi' q hq
  case heldOwnNodup =>
    intro p hp
    rcases mem_updateA hp with hp' | ⟨hp', _⟩
    · subst hp'
      show (regionSlots _).Nodup
      rw [hsplitrs]
      refine List.Nodup.append (hInv.heldOwnNodup (h, cb) hmemcb) habnd ?_
      intro i hi hiab
      exact hnotheld i hiab (h, cb) hmemcb hi
    · exact hInv.heldOwnNodup p hp'
  case logKeysNodup => exact hInv.logKeysNodup
  case logGenLe =>
    intro p hp e he hkey
    rcases mem_updateA hp with hp' | ⟨hp', _⟩
    · subst hp'
      exact hInv.logGenLe (h, cb) hmemcb e he hkey
    · exact hInv.logGenLe p hp' e he hkey
  case pendingLogged =>
    intro p hp hpend
    rcases mem_updateA hp with hp' | ⟨hp', _⟩
    · subst hp'
      rw [show ({ cb with regions := cb.regions ++ [⟨rid, some (a, b)⟩] }
        : CmdBuffer).state = cb.state from rfl, hst] at hpend
      cases hpend
    · exact hInv.pendingLogged p hp' hpend
  case eventsLogged => exact hInv.eventsLogged
  case eventsSub => exact hInv.eventsSub

theorem inv_assignFail {cap : Nat} {σ : LayerState} {h rid : Nat}
    {taken : List Nat} {cb : CmdBuffer}
    (hcb : lookupA σ.buffers h = some cb)
    (hst : cb.state = CBState.Recording)
    (hta : σ.pool.freeIndices.take 2 = taken) (hInv : TrackInv cap σ) :
    TrackInv cap { σ with
      pool := (σ.pool.setMany taken SlotState.Reserved).Release taken,
      buffers := updateA σ.buffers h
        { cb with regions := cb.regions ++ [⟨rid, none⟩] } } := by
  have hmemcb : (h, cb) ∈ σ.buffers := lookupA_mem _ _ _ hcb
  have hnotheld : ∀ i ∈ taken, ∀ q ∈ σ.buffers,
      i ∉ regionSlots q.2.regions := by
    intro i hi q hq hmem
    have hin : i ∈ σ.pool.freeIndices := by
      refine List.Sublist.mem ?_ (List.take_sublist 2 _)
      rw [hta]
      exact hi
    exact ownedNotFree hInv q hq i hmem ((mem_freeIndices _ _).mp hin).2
  have hsplitrs : regionSlots (cb.regions ++ [⟨rid, none⟩]) =
      regionSlots cb.regions := by
    rw [regionSlots_append]
    simp [regionSlots]
  have hpoolAt : ∀ i, i ∉ taken →
      ((σ.pool.setMany taken SlotState.Reserved).Release taken).slotAt i =
        σ.pool.slotAt i := by
    intro i hi
    show ((σ.pool.setMany taken SlotState.Reserved).setMany taken
      SlotState.Free).slotAt i = _
    rw [slotAt_setMany_not_mem _ _ _ _ hi, slotAt_setMany_not_mem _ _ _ _ hi]
  constructor
  case poolLen =>
    exact (length_setMany ..).trans ((length_setMany ..).trans hInv.poolLen)
  case keysNodup =>
    show ((updateA σ.buffers h _).map Prod.fst).Nodup
    rw [keys_updateA]
    exact hInv.keysNodup
  case ownedBound =>
    intro p hp i hi
    rcases mem_updateA hp with hp' | ⟨hp', _⟩
    · subst hp'
      rw [hsplitrs] at hi
      exact hInv.ownedBound (h, cb) hmemcb i hi
    · exact hInv.ownedBound p hp' i hi
  case ownedState =>
    intro p hp i hi
    rcases mem_updateA hp with hp' | ⟨hp', hpne⟩
    · subst hp'
      rw [hsplitrs] at hi
      rw [hpoolAt i fun hit => hnotheld i hit (h, cb) hmemcb hi]
      exact hInv.ownedState (h, cb) hmemcb i hi
    · rw [hpoolAt i fun hit => hnotheld i hit p hp' hi]
      exact hInv.ownedState p hp' i hi
  case heldPairwise =>
    refine heldPairwise_updateA hcb hInv.heldPairwise ?_
    intro i hi
    rw [hsplitrs] at hi
    exact Or.inl hi
  case heldOwnNodup =>
    intro p hp
    rcases mem_updateA hp with hp' | ⟨hp', _⟩
    · subst hp'
      show (regionSlots _).Nodup
      rw [hsplitrs]
      exact hInv.heldOwnNodup (h, cb) hmemcb
    · exact hInv.heldOwnNodup p hp'
  case logKeysNodup => exact hInv.logKeysNodup
  case logGenLe =>
    intro p hp e he hkey
    rcases mem_updateA hp with hp' | ⟨hp', _⟩
    · subst hp'
      exact hInv.logGenLe (h, cb) hmemcb e he hkey
    · exact hInv.logGenLe p hp' e he hkey
  case pendingLogged =>
    intro p hp hpend
    rcases mem_updateA hp with hp' | ⟨hp', _⟩
    · subst hp'
      rw [show ({ cb with regions := cb.regions ++ [⟨rid, none⟩] }
        : CmdBuffer).state = cb.state from rfl, hst] at hpend
      cases hpend
    · exact hInv.pendingLogged p hp' hpend
  case eventsLogged => exact hInv.eventsLogged
  case eventsSub => exact hInv.eventsSub

theorem eq_of_nodup_map {α β : Type} {f : α → β} {l : List α} {a b : α}
    (hnd : (l.map f).Nodup) (ha : a ∈ l) (hb : b ∈ l) (hfe : f a = f b) :
    a = b := by
  by_contra hne
  have hpw : List.Pairwise (fun x y => f x ≠ f y) l := List.pairwise_map.mp hnd
  have hsymm : Symmetric fun x y : α => f x ≠ f y :=
    fun x y hxy he => hxy he.symm
  exact hpw.forall hsymm ha hb hne hfe

theorem inv_drainOne {cap : Nat} {σ : LayerState} (h : Nat)
    (hInv : TrackInv cap σ) : TrackInv cap (drainOne σ h) := by
  cases hcb : lookupA σ.buffers h with
  | none =>
    have hD : drainOne σ h = σ := by
      simp only [drainOne, hcb]
    rw [hD]
    exact hInv
  | some cb =>
    by_cases hst : cb.state = CBState.Pending
    case neg =>
      have hD : drainOne σ h = σ := by
        simp only [drainOne, hcb, if_neg hst]
      rw [hD]
      exact hInv
    case pos =>
      have hD : drainOne σ h =
          { pool := (σ.pool.MarkReady (regionSlots cb.regions)).Release
              (regionSlots cb.regions),
            buffers := updateA σ.buffers h
              { cb with state := CBState.Executable,
                        regions := cb.regions.map fun r =>
                          { r with slots := none } },
            emitted := σ.emitted ++
              (cb.regions.filter fun r => r.slots.isSome).map fun r =>
                { buffer := h, regionId := r.regionId,
                  generation := cb.generation },
            submitLog := σ.submitLog } := by
        simp only [drainOne, hcb, if_pos hst]
      rw [hD]
      have hmemcb : (h, cb) ∈ σ.buffers := lookupA_mem _ _ _ hcb
      obtain ⟨hlog, hev⟩ := hInv.pendingLogged (h, cb) hmemcb hst
      have hpoolAt : ∀ i, i ∉ regionSlots cb.regions →
          ((σ.pool.MarkReady (regionSlots cb.regions)).Release
            (regionSlots cb.regions)).slotAt i = σ.pool.slotAt i := by
        intro i hi
        show ((σ.pool.setMany _ _).setMany _ _).slotAt i = _
        rw [slotAt_setMany_not_mem _ _ _ _ hi,
          slotAt_setMany_not_mem _ _ _ _ hi]
      constructor
      case poolLen =>
        exact (length_setMany ..).trans ((length_setMany ..).trans hInv.poolLen)
      case keysNodup =>
        show ((updateA σ.buffers h _).map Prod.fst).Nodup
        rw [keys_updateA]
        exact hInv.keysNodup
      case ownedBound =>
        intro p hp i hi
        rcases mem_updateA hp with hp' | ⟨hp', _⟩
        · subst hp'
          simp [regionSlots_clear] at hi
        · exact hInv.ownedBound p hp' i hi
      case ownedState =>
        intro p hp i hi
        rcases mem_updateA hp with hp' | ⟨hp', hpne⟩
        · subst hp'
          simp [regionSlots_clear] at hi
        · have hnotin : i ∉ regionSlots cb.regions :=
            hInv.heldPairwise p hp' (h, cb) hmemcb hpne i hi
          show ((σ.pool.MarkReady (regionSlots cb.regions)).Release
            (regionSlots cb.regions)).slotAt i = ownSlotState p.2.state
          rw [hpoolAt i hnotin]
          exact hInv.ownedState p hp' i hi
      case heldPairwise =>
        refine heldPairwise_updateA hcb hInv.heldPairwise ?_
        intro i hi
        simp [regionSlots_clear] at hi
      case heldOwnNodup =>
        intro p hp
        rcases mem_updateA hp with hp' | ⟨hp', _⟩
        · subst hp'
          simp [regionSlots_clear]
        · exact hInv.heldOwnNodup p hp'
      case logKeysNodup => exact hInv.logKeysNodup
      case logGenLe =>
        intro p hp e he hkey
        rcases mem_updateA hp with hp' | ⟨hp', _⟩
        · subst hp'
          exact hInv.logGenLe (h, cb) hmemcb e he hkey
        · exact hInv.logGenLe p hp' e he hkey
      case pendingLogged =>
        intro p hp hpend
        rcases mem_updateA hp with hp' | ⟨hp', hpne⟩
        · subst hp'
          cases hpend
        · obtain ⟨hlogp, hevp⟩ := hInv.pendingLogged p hp' hpend
          refine ⟨hlogp, ?_⟩
          show evIds (σ.emitted ++ _) p.1 p.2.generation = []
          rw [evIds_append, hevp,
            evIds_emit_ne _ _ _ _ _ (Or.inl fun he => hpne he)]
          rfl
      case eventsLogged =>
        intro e he
        rcases List.mem_append.mp he with he' | he'
        · exact hInv.eventsLogged e he'
        · rw [List.mem_map] at he'
          obtain ⟨r, _, hr⟩ := he'
          subst hr
          exact ⟨assignedIds cb.regions, hlog⟩
      case eventsSub =>
        intro lg hlg
        by_cases hkey : lg.1 = h ∧ lg.2.1 = cb.generation
        · have hlgeq : lg = (h, cb.generation, assignedIds cb.regions) := by
            refine eq_of_nodup_map hInv.logKeysNodup hlg hlog ?_
            show (lg.1, lg.2.1) = (h, cb.generation)
            rw [hkey.1, hkey.2]
          show List.Sublist (evIds (σ.emitted ++ _) lg.1 lg.2.1) lg.2.2
          rw [hlgeq]
          show List.Sublist (evIds (σ.emitted ++ _) h cb.generation)
            (assignedIds cb.regions)
          rw [evIds_append, hev, evIds_emit_self]
          exact (List.nil_append _) ▸ List.Sublist.refl (assignedIds cb.regions)
        · show List.Sublist (evIds (σ.emitted ++ _) lg.1 lg.2.1) lg.2.2
          rw [evIds_append]
          have hne : lg.1 ≠ h ∨ lg.2.1 ≠ cb.generation := by
            by_contra hc
            push_neg at hc
            exact hkey ⟨hc.1, hc.2⟩
          rw [evIds_emit_ne _ _ _ _ _ hne, List.append_nil]
          exact hInv.eventsSub lg hlg

theorem inv_drainFold {cap : Nat} (completed : List Nat) (σ : LayerState)
    (hInv : TrackInv cap σ) :
    TrackInv cap (completed.foldl drainOne σ) := by
  induction completed generalizing σ with
  | nil => exact hInv
  | cons c cs ih => exact ih _ (inv_drainOne c hInv)

theorem stepOp_inv {cap : Nat} {σ σ' : LayerState} {op : Op}
    (hInv : TrackInv cap σ) (hstep : stepOp σ op = Except.ok σ') :
    TrackInv cap σ' := by
  cases op with
  | allocate hs =>
    simp only [stepOp] at hstep
    by_cases hc : hs.Nodup ∧ ∀ h ∈ hs, lookupA σ.buffers h = none ∧
        ∀ e ∈ σ.submitLog, e.1 ≠ h
    · rw [if_pos hc] at hstep
      cases hstep
      exact inv_allocate hc.1 hc.2 hInv
    · rw [if_neg hc] at hstep
      exact Except.noConfusion hstep
  | beginRec h =>
    simp only [stepOp] at hstep
    cases hcb : lookupA σ.buffers h with
    | none =>
      rw [hcb] at hstep
      exact Except.noConfusion hstep
    | some cb =>
      simp only [hcb] at hstep
      by_cases hc : cb.state = CBState.Initial ∨ cb.state = CBState.Executable
      · rw [if_pos hc] at hstep
        cases hstep
        exact inv_clearRelease CBState.Recording (by decide) hcb hInv
      · rw [if_neg hc] at hstep
        exact Except.noConfusion hstep
  | assignRegion h rid =>
    simp only [stepOp] at hstep
    cases hcb : lookupA σ.buffers h with
    | none =>
      rw [hcb] at hstep
      exact Except.noConfusion hstep
    | some cb =>
      simp only [hcb] at hstep
      by_cases hc : cb.state = CBState.Recording
      · rw [if_pos hc] at hstep
        cases hres : σ.pool.Reserve 2 with
        | mk taken pool' =>
          have hfst : σ.pool.freeIndices.take 2 = taken :=
            congrArg Prod.fst hres
          have hsnd : σ.pool.setMany (σ.pool.freeIndices.take 2)
              SlotState.Reserved = pool' := congrArg Prod.snd hres
          rw [hfst] at hsnd
          rw [hres] at hstep
          match taken, hfst, hsnd, hstep with
          | [], hfst, hsnd, hstep =>
            cases hstep
            rw [← hsnd]
            exact inv_assignFail hcb hc hfst hInv
          | [a], hfst, hsnd, hstep =>
            cases hstep
            rw [← hsnd]
            exact inv_assignFail hcb hc hfst hInv
          | [a, b], hfst, hsnd, hstep =>
            cases hstep
            rw [← hsnd]
            exact inv_assignTwo hcb hc hfst hInv
          | a :: b :: c :: t, hfst, hsnd, hstep =>
            cases hstep
            rw [← hsnd]
            exact inv_assignFail hcb hc hfst hInv
      · rw [if_neg hc] at hstep
        exact Except.noConfusion hstep
  | endRec h =>
    simp only [stepOp] at hstep
    cases hcb : lookupA σ.buffers h with
    | none =>
      rw [hcb] at hstep
      exact Except.noConfusion hstep
    | some cb =>
      simp only [hcb] at hstep
      by_cases hc : cb.state = CBState.Recording
      · rw [if_pos hc] at hstep
        cases hstep
        exact inv_endRec hcb hc hInv
      · rw [if_neg hc] at hstep
        exact Except.noConfusion hstep
  | submit h =>
    simp only [stepOp] at hstep
    cases hcb : lookupA σ.buffers h with
    | none =>
      rw [hcb] at hstep
      exact Except.noConfusion hstep
    | some cb =>
      simp only [hcb] at hstep
      by_cases hc : cb.state = CBState.Executable
      · rw [if_pos hc] at hstep
        cases hstep
        exact inv_submit hcb hInv
      · rw [if_neg hc] at hstep
        exact Except.noConfusion hstep
  | drain completed =>
    simp only [stepOp] at hstep
    cases hstep
    exact inv_drainFold completed σ hInv
  | reset h =>
    simp only [stepOp] at hstep
    cases hcb : lookupA σ.buffers h with
    | none =>
      rw [hcb] at hstep
      exact Except.noConfusion hstep
    | some cb =>
      simp only [hcb] at hstep
      by_cases hc : cb.state = CBState.Pending
      · rw [if_pos hc] at hstep
        exact Except.noConfusion hstep
      · rw [if_neg hc] at hstep
        cases hstep
        exact inv_clearRelease CBState.Initial (by decide) hcb hInv
  | free h =>
    simp only [stepOp] at hstep
    cases hcb : lookupA σ.buffers h with
    | none =>
      rw [hcb] at hstep
      exact Except.noConfusion hstep
    | some cb =>
      simp only [hcb] at hstep
      by_cases hc : cb.state = CBState.Pending
      · rw [if_pos hc] at hstep
        exact Except.noConfusion hstep
      · rw [if_neg hc] at hstep
        cases hstep
        exact inv_free hcb hInv

theorem inv_init (cap : Nat) : TrackInv cap (initState cap) := by
  constructor <;> simp [initState]

theorem runOps_inv {cap : Nat} :
    ∀ (ops : List Op) (σ0 σ : LayerState), TrackInv cap σ0 →
      runOps σ0 ops = some σ → TrackInv cap σ := by
  intro ops
  induction ops with
  | nil =>
    intro σ0 σ h0 hr
    simp only [runOps] at hr
    cases hr
    exact h0
  | cons op ops ih =>
    intro σ0 σ h0 hr
    simp only [runOps] at hr
    cases hstep : stepOp σ0 op with
    | ok σ1 =>
      rw [hstep] at hr
      exact ih σ1 σ (stepOp_inv h0 hstep) hr
    | error e =>
      rw [hstep] at hr
      exact Option.noConfusion hr

theorem runOps_reach_inv {cap : Nat} {ops : List Op} {σ : LayerState}
    (hr : runOps (initState cap) ops = some σ) : TrackInv cap σ :=
  runOps_inv ops (initState cap) σ (inv_init cap) hr

/-!
## Consequences of the invariant
-/

theorem mem_allHeldSlots (σ : LayerState) (i : Nat) :
    i ∈ allHeldSlots σ ↔ ∃ p ∈ σ.buffers, i ∈ regionSlots p.2.regions := by
  rw [allHeldSlots, List.mem_flatten]
  constructor
  · rintro ⟨l, hl, hil⟩
    rw [List.mem_map] at hl
    obtain ⟨p, hp, he⟩ := hl
    exact ⟨p, hp, he ▸ hil⟩
  · rintro ⟨p, hp, hip⟩
    exact ⟨regionSlots p.2.regions, List.mem_map.mpr ⟨p, hp, rfl⟩, hip⟩

theorem allHeldSlots_nodup {cap : Nat} {σ : LayerState}
    (hInv : TrackInv cap σ) : (allHeldSlots σ).Nodup := by
  rw [allHeldSlots, List.nodup_flatten]
  constructor
  · intro l hl
    rw [List.mem_map] at hl
    obtain ⟨p, hp, he⟩ := hl
    exact he ▸ hInv.heldOwnNodup p hp
  · rw [List.pairwise_map]
    have hk : List.Pairwise (fun a b : Nat × CmdBuffer => a.1 ≠ b.1) σ.buffers :=
      List.pairwise_map.mp hInv.keysNodup
    refine List.Pairwise.imp_of_mem ?_ hk
    intro a b ha hb hab
    rw [List.disjoint_left]
    intro i hia hib
    exact hInv.heldPairwise a ha b hb hab i hia hib

theorem register_preserves (r : QueueRegistry) (q d a b : Nat)
    (hl : lookupA r.entries q = some d) :
    lookupA ((r.Register a b).1).entries q = some d := by
  rw [QueueRegistry.Register]
  cases hq : lookupA r.entries a with
  | none =>
    show lookupA ((a, b) :: r.entries) q = some d
    by_cases haq : a = q
    · subst haq
      rw [hq] at hl
      cases hl
    · show (if a = q then some b else lookupA r.entries q) = some d
      rw [if_neg haq]
      exact hl
  | some d2 =>
    show lookupA ((if d2 = b then (r, none)
      else (r, some OrbitError.ContractViolation)) :
        QueueRegistry × Option OrbitError).1.entries q = some d
    by_cases hdb : d2 = b
    · rw [if_pos hdb]
      exact hl
    · rw [if_neg hdb]
      exact hl

/-!
## Claim theorems
-/

/-- C1: the claim says every intercepted entry point returns the forwarded
driver result unchanged, for every result value, in particular
`OrbitQueueSubmit` for `VK_ERROR_DEVICE_LOST`.  The code contradicts this:
`OrbitQueueSubmit` executes `CHECK(result == VK_SUCCESS)` (Main.cpp:195),
so when the driver returns `VK_ERROR_DEVICE_LOST` and no hook throws, the
process aborts in the `CHECK` and the error is never returned to the
application. -/
theorem C1_queueSubmit_aborts_on_device_lost :
    OrbitQueueSubmit false false false VK_ERROR_DEVICE_LOST = Outcome.fatal ∧
    OrbitQueueSubmit false false false VK_ERROR_DEVICE_LOST ≠
      Outcome.ok VK_ERROR_DEVICE_LOST ∧
    OrbitResetCommandPool false false VK_ERROR_DEVICE_LOST =
      Outcome.ok VK_ERROR_DEVICE_LOST := by
  decide

/-- C2 counterexample: the claim says that when a hook throws, the host
process is not terminated and the real call's result is still returned.  At
the concrete input where `PostCallResetCommandPool` throws and the driver
returned `VK_SUCCESS`, `OrbitResetCommandPool` lands in `CHECK(false)`
(Main.cpp:107), terminating the process instead of returning `VK_SUCCESS`. -/
theorem C2_counterexample_post_hook_throw :
    OrbitResetCommandPool false true VK_SUCCESS = Outcome.fatal ∧
    OrbitResetCommandPool false true VK_SUCCESS ≠ Outcome.ok VK_SUCCESS := by
  decide

/-- C2 (amended): an exception in the hook logic never escapes the entry
point (the catch-all at the boundary holds), and when no hook throws the
forwarded result is returned; but a thrown exception is converted into a
failing `CHECK(false)`, which terminates the host process rather than
letting the call chain proceed. -/
theorem C2_exceptions_caught_but_fatal :
    ∀ (ct pt : Bool) (r : Int),
      OrbitResetCommandPool ct pt r ≠ Outcome.uncaught ∧
      ((ct = true ∨ pt = true) → OrbitResetCommandPool ct pt r = Outcome.fatal) ∧
      (ct = false → pt = false → OrbitResetCommandPool ct pt r = Outcome.ok r) ∧
      ∀ pr : Bool, OrbitQueueSubmit pr ct pt r ≠ Outcome.uncaught ∧
        ((pr = true ∨ ct = true) → OrbitQueueSubmit pr ct pt r = Outcome.fatal) := by
  intro ct pt r
  refine ⟨?_, ?_, ?_, ?_⟩
  · cases ct <;> cases pt <;> simp [OrbitResetCommandPool]
  · rintro (h | h)
    · subst h
      simp [OrbitResetCommandPool]
    · subst h
      cases ct <;> simp [OrbitResetCommandPool]
  · intro h1 h2
    subst h1
    subst h2
    simp [OrbitResetCommandPool]
  · intro pr
    constructor
    · cases pr <;> cases ct <;> cases pt <;> by_cases hr : r = VK_SUCCESS <;>
        simp [OrbitQueueSubmit, hr]
    · rintro (h | h)
      · subst h
        simp [OrbitQueueSubmit]
      · subst h
        cases pr <;> simp [OrbitQueueSubmit]

/-- C2 witness: at a concrete throwing input the entry point is fatal. -/
theorem C2_witness :
    OrbitResetCommandPool true false 0 = Outcome.fatal :=
  (C2_exceptions_caught_but_fatal true false 0).2.1 (Or.inl rfl)

/-- C7: in every `OrbitQueueSubmit` interception the pre-submit hook's
timestamp capture is the first step, strictly before the forwarded driver
call; the post-submit hook, whenever it runs, runs strictly after the
forwarded call and receives the pre-submit correlation token unchanged; and
when the forwarded call succeeds the post-submit hook does run. -/
theorem C7_submit_hook_ordering :
    ∀ (t : Option Nat) (r : Int),
      (OrbitQueueSubmitTrace t r).get? 0 = some (SubmitStep.preCapture t) ∧
      (OrbitQueueSubmitTrace t r).get? 1 = some (SubmitStep.forwardCall r) ∧
      (∀ i tok, (OrbitQueueSubmitTrace t r).get? i =
        some (SubmitStep.postHook tok) → tok = t ∧ 2 ≤ i) ∧
      (r = VK_SUCCESS →
        (OrbitQueueSubmitTrace t r).get? 2 = some (SubmitStep.postHook t)) := by
  intro t r
  by_cases hr : r = VK_SUCCESS
  · subst hr
    refine ⟨rfl, rfl, ?_, fun _ => rfl⟩
    intro i tok hi
    rcases i with _ | _ | _ | i
    · simp [OrbitQueueSubmitTrace] at hi
    · simp [OrbitQueueSubmitTrace] at hi
    · simp [OrbitQueueSubmitTrace] at hi
      exact ⟨hi.symm, by omega⟩
    · simp [OrbitQueueSubmitTrace] at hi
  · refine ⟨rfl, rfl, ?_, fun hc => absurd hc hr⟩
    intro i tok hi
    rcases i with _ | _ | _ | i
    · simp [OrbitQueueSubmitTrace] at hi
    · simp [OrbitQueueSubmitTrace] at hi
    · simp [OrbitQueueSubmitTrace, hr] at hi
    · simp [OrbitQueueSubmitTrace, hr] at hi

/-- C7 witness: concrete success trace, with token 5 delivered to the
post-submit hook at position 2. -/
theorem C7_witness : some 5 = some 5 ∧ 2 ≤ 2 :=
  (C7_submit_hook_ordering (some 5) VK_SUCCESS).2.2.1 2 (some 5) (by decide)

/-- C8: `OrbitEnumerateInstanceExtensionProperties` returns normally exactly
when `layer_name` is non-null and equals `"ORBIT_VK_LAYER"` (writing 0
through a non-null `property_count` and returning `VK_SUCCESS`); for a null
or different `layer_name` it reaches the unconditional `CHECK(false)`
(Main.cpp:291), so the subsequent `return VK_ERROR_LAYER_NOT_PRESENT` is
unreachable for every input. -/
theorem C8_instance_extension_enumeration :
    ∀ (ln : Option (List Char)) (pc : Option Nat),
      (ln = some kLayerNameChars →
        OrbitEnumerateInstanceExtensionProperties ln pc =
          Outcome.ok (VK_SUCCESS, pc.map fun _ => 0)) ∧
      (ln ≠ some kLayerNameChars →
        OrbitEnumerateInstanceExtensionProperties ln pc = Outcome.fatal) ∧
      ∀ cnt, OrbitEnumerateInstanceExtensionProperties ln pc ≠
        Outcome.ok (VK_ERROR_LAYER_NOT_PRESENT, cnt) := by
  intro ln pc
  by_cases hln : ln = some kLayerNameChars
  · refine ⟨fun _ => ?_, fun hc => absurd hln hc, ?_⟩
    · simp only [OrbitEnumerateInstanceExtensionProperties, if_pos hln]
    · intro cnt hcontra
      simp only [OrbitEnumerateInstanceExtensionProperties, if_pos hln] at hcontra
      simp [VK_SUCCESS, VK_ERROR_LAYER_NOT_PRESENT] at hcontra
  · refine ⟨fun hc => absurd hc hln, fun _ => ?_, ?_⟩
    · simp only [OrbitEnumerateInstanceExtensionProperties, if_neg hln]
    · intro cnt hcontra
      simp only [OrbitEnumerateInstanceExtensionProperties, if_neg hln] at hcontra
      exact Outcome.noConfusion hcontra

/-- C8 witness: a null `layer_name` reaches the failing assertion. -/
theorem C8_witness :
    OrbitEnumerateInstanceExtensionProperties none (some 7) = Outcome.fatal :=
  (C8_instance_extension_enumeration none (some 7)).2.1 (by decide)

/-- C9: `OrbitEnumerateInstanceLayerProperties` always returns `VK_SUCCESS`,
writes 1 through a non-null `property_count`, and — because both `snprintf`
calls pass size `strlen(src)`, which reserves one byte for the terminator —
writes a layerName equal to the first `strlen("ORBIT_VK_LAYER") - 1`
characters of the name, i.e. `"ORBIT_VK_LAYE"`, and a description truncated
by its last character; `OrbitEnumerateDeviceLayerProperties` returns the
identical results by delegation. -/
theorem C9_layer_properties_truncation :
    ∀ (pc : Option Nat) (pp : Bool),
      OrbitEnumerateDeviceLayerProperties pc pp =
        OrbitEnumerateInstanceLayerProperties pc pp ∧
      (OrbitEnumerateInstanceLayerProperties pc pp).1 = VK_SUCCESS ∧
      (OrbitEnumerateInstanceLayerProperties pc pp).2.1 =
        pc.map (fun _ => 1) ∧
      (pp = true →
        (OrbitEnumerateInstanceLayerProperties pc pp).2.2 =
          some { layerName :=
                   kLayerNameChars.take (kLayerNameChars.length - 1),
                 description :=
                   kLayerDescriptionChars.take
                     (kLayerDescriptionChars.length - 1),
                 implementationVersion := 1,
                 specVersion := 4198400 } ∧
        kLayerNameChars.take (kLayerNameChars.length - 1) =
          "ORBIT_VK_LAYE".toList ∧
        kLayerDescriptionChars.take (kLayerDescriptionChars.length - 1) =
          "Provides GPU insights for the Orbit Profile".toList) := by
  intro pc pp
  refine ⟨rfl, rfl, rfl, ?_⟩
  intro hpp
  subst hpp
  refine ⟨rfl, ?_, ?_⟩
  · decide
  · decide

/-- C9 witness: concrete enumeration with a non-null properties pointer. -/
theorem C9_witness :
    (OrbitEnumerateInstanceLayerProperties (some 0) true).2.2 =
      some { layerName := kLayerNameChars.take (kLayerNameChars.length - 1),
             description := kLayerDescriptionChars.take
               (kLayerDescriptionChars.length - 1),
             implementationVersion := 1,
             specVersion := 4198400 } :=
  ((C9_layer_properties_truncation (some 0) true).2.2.2 rfl).1

/-- C10: when `OrbitEnumerateDeviceExtensionProperties` is queried for
`"ORBIT_VK_LAYER"` exclusively: with a null `properties` pointer it writes
the extension count 3 and returns `VK_SUCCESS`; with a non-null `properties`
and `*property_count < 3` it copies exactly `*property_count` extensions,
writes that count back, and returns `VK_INCOMPLETE`; with
`*property_count ≥ 3` it copies all 3, writes 3, and returns `VK_SUCCESS` —
for every behaviour of the forwarded call chain. -/
theorem C10_device_extension_enumeration :
    ∀ (pc : Nat) (fw : Int × Nat × List ExtensionProperties),
      OrbitEnumerateDeviceExtensionProperties (some kLayerNameChars) pc true
        fw = (VK_SUCCESS, 3, []) ∧
      device_extensions.length = 3 ∧
      (pc < 3 →
        OrbitEnumerateDeviceExtensionProperties (some kLayerNameChars) pc
          false fw = (VK_INCOMPLETE, pc, device_extensions.take pc)) ∧
      (3 ≤ pc →
        OrbitEnumerateDeviceExtensionProperties (some kLayerNameChars) pc
          false fw = (VK_SUCCESS, 3, device_extensions)) := by
  intro pc fw
  refine ⟨?_, rfl, ?_, ?_⟩
  · simp [OrbitEnumerateDeviceExtensionProperties]
    rfl
  · intro hlt
    have hlt' : pc < device_extensions.length := hlt
    simp [OrbitEnumerateDeviceExtensionProperties, hlt']
  · intro hge
    have hnlt : ¬pc < device_extensions.length := by
      show ¬pc < 3
      omega
    simp [OrbitEnumerateDeviceExtensionProperties, hnlt]
    rfl

/-- C10 witness: a query with room for only one extension is truncated and
flagged `VK_INCOMPLETE`. -/
theorem C10_witness :
    OrbitEnumerateDeviceExtensionProperties (some kLayerNameChars) 1 false
      (0, 0, []) = (VK_INCOMPLETE, 1, device_extensions.take 1) :=
  (C10_device_extension_enumeration 1 (0, 0, [])).2.2.1 (by decide)

/-- C4: once a queue is recorded as belonging to device `d1`, its recorded
owner never changes: re-registering the same pair is an idempotent no-op, a
registration to a different device is reported as a `ContractViolation`
while `d1` remains the owner `DeviceOf` returns, and no sequence of further
`Register` calls can change the recorded owner. -/
theorem C4_queue_device_immutable :
    ∀ (r : QueueRegistry) (q d1 : Nat), r.DeviceOf q = Except.ok d1 →
      r.Register q d1 = (r, none) ∧
      (∀ d2, d2 ≠ d1 →
        r.Register q d2 = (r, some OrbitError.ContractViolation) ∧
        (r.Register q d2).1.DeviceOf q = Except.ok d1) ∧
      ∀ ps : List (Nat × Nat),
        (applyRegisters r ps).DeviceOf q = Except.ok d1 := by
  intro r q d1 hdev
  have hl : lookupA r.entries q = some d1 := by
    cases hq : lookupA r.entries q with
    | none =>
      simp only [QueueRegistry.DeviceOf, hq] at hdev
      exact Except.noConfusion hdev
    | some d =>
      simp only [QueueRegistry.DeviceOf, hq] at hdev
      cases hdev
      rfl
  have key : ∀ (ps : List (Nat × Nat)) (r' : QueueRegistry),
      lookupA r'.entries q = some d1 →
      lookupA ((ps.foldl (fun acc p =>
        (QueueRegistry.Register acc p.1 p.2).1) r').entries) q = some d1 := by
    intro ps
    induction ps with
    | nil =>
      intro r' hr'
      exact hr'
    | cons p t ih =>
      intro r' hr'
      rw [List.foldl_cons]
      exact ih _ (register_preserves r' q d1 p.1 p.2 hr')
  refine ⟨?_, ?_, ?_⟩
  · simp only [QueueRegistry.Register, hl]
    simp
  · intro d2 hne
    have hreg : r.Register q d2 = (r, some OrbitError.ContractViolation) := by
      simp only [QueueRegistry.Register, hl]
      rw [if_neg fun he => hne he.symm]
    refine ⟨hreg, ?_⟩
    rw [hreg]
    simp only [QueueRegistry.DeviceOf, hl]
  · intro ps
    simp only [applyRegisters, QueueRegistry.DeviceOf, key ps r hl]

/-- C4 witness: queue 5 registered to device 1; registering it to device 2
is a reported violation and device 1 remains the owner. -/
theorem C4_witness :
    (QueueRegistry.mk [(5, 1)]).Register 5 2 =
      (QueueRegistry.mk [(5, 1)], some OrbitError.ContractViolation) ∧
    ((QueueRegistry.mk [(5, 1)]).Register 5 2).1.DeviceOf 5 = Except.ok 1 :=
  (C4_queue_device_immutable ⟨[(5, 1)]⟩ 5 1 rfl).2.1 2 (by decide)

/-- C6: `Reserve(count)` hands out exactly `min count |free list|` slot
indices — never more than `count`, possibly fewer down to zero — and never
changes the pool's capacity; and in the concrete capacity-4 scenario, of
three requested regions the first two receive both slots, the third is
degraded to "unassigned", the run completes without any violation, and the
degraded region never produces an event even across two drains. -/
theorem C6_reserve_degradation :
    (∀ (p : QueryPool) (n : Nat),
      (p.Reserve n).1.length = min n p.freeIndices.length ∧
      (p.Reserve n).1.length ≤ n ∧
      (p.Reserve n).2.slots.length = p.slots.length) ∧
    (runOps (initState 4) (c6ScenarioOps.take 5)).map (fun σ => σ.buffers) =
      some [(0, ⟨CBState.Recording,
        [⟨1, some (0, 1)⟩, ⟨2, some (2, 3)⟩, ⟨3, none⟩], 0⟩)] ∧
    (runOps (initState 4) c6ScenarioOps).map
        (fun σ => (σ.buffers, σ.emitted, σ.pool.slots)) =
      some ([(0, ⟨CBState.Executable, [⟨1, none⟩, ⟨2, none⟩, ⟨3, none⟩], 1⟩)],
        [⟨0, 1, 1⟩, ⟨0, 2, 1⟩],
        [SlotState.Free, SlotState.Free, SlotState.Free, SlotState.Free]) := by
  refine ⟨?_, by decide, by decide⟩
  intro p n
  refine ⟨reserve_length p n, ?_, reserve_pool_length p n⟩
  rw [reserve_length]
  exact Nat.min_le_left _ _

/-- C3 counterexample: the claim says a buffer's slot assignments are
cleared exactly at reset or free, never earlier; but after the permitted
sequence allocate, begin, assign, end, a second `OnBeginRecording` (a
re-recording of a never-submitted buffer, which the state machine allows
from `Executable`) discards the stale assignments and releases their slots —
no reset or free occurred, yet the assignments are gone. -/
theorem C3_counterexample_begin_clears :
    (runOps (initState 4) [Op.allocate [0], Op.beginRec 0,
        Op.assignRegion 0 7, Op.endRec 0]).map (fun σ => heldSlots σ 0) =
      some [0, 1] ∧
    (runOps (initState 4) [Op.allocate [0], Op.beginRec 0,
        Op.assignRegion 0 7, Op.endRec 0, Op.beginRec 0]).map
        (fun σ => heldSlots σ 0) = some [] ∧
    (runOps (initState 4) [Op.allocate [0], Op.beginRec 0,
        Op.assignRegion 0 7, Op.endRec 0, Op.beginRec 0]).map
        (fun σ => σ.pool.slots) =
      some [SlotState.Free, SlotState.Free, SlotState.Free, SlotState.Free] := by
  decide

/-- C3 (amended): for every permitted operation sequence the slot states
partition the fixed pool capacity (Free + Reserved + Pending + Ready =
capacity at all times); every held slot index is in range, not Free, and
held by exactly one assignment (no dangling or doubly-owned slots);
resetting a command buffer returns every slot it held to Free and clears its
assignments, and freeing it returns every slot to Free and removes it from
tracking.  Assignments are additionally relinquished when a re-recording
begins (stale assignments of a never-submitted recording are discarded) and
when a region's slots are released after read-back during a drain. -/
theorem C3_slot_accounting :
    ∀ (cap : Nat) (ops : List Op) (σ : LayerState),
      runOps (initState cap) ops = some σ →
      (σ.pool.countState SlotState.Free +
        σ.pool.countState SlotState.Reserved +
        σ.pool.countState SlotState.Pending +
        σ.pool.countState SlotState.Ready = cap) ∧
      (∀ i ∈ allHeldSlots σ, i < cap ∧ σ.pool.slotAt i ≠ SlotState.Free) ∧
      (allHeldSlots σ).Nodup ∧
      (∀ h σ', stepOp σ (Op.reset h) = Except.ok σ' →
        (∀ i ∈ heldSlots σ h, σ'.pool.slotAt i = SlotState.Free) ∧
        heldSlots σ' h = []) ∧
      (∀ h σ', stepOp σ (Op.free h) = Except.ok σ' →
        (∀ i ∈ heldSlots σ h, σ'.pool.slotAt i = SlotState.Free) ∧
        lookupA σ'.buffers h = none) := by
  intro cap ops σ hrun
  have hInv := runOps_reach_inv hrun
  refine ⟨?_, ?_, allHeldSlots_nodup hInv, ?_, ?_⟩
  · rw [← hInv.poolLen]
    exact countState_partition σ.pool
  · intro i hi
    obtain ⟨p, hp, hip⟩ := (mem_allHeldSlots σ i).mp hi
    exact ⟨hInv.ownedBound p hp i hip,
      fun hf => ownedNotFree hInv p hp i hip hf⟩
  · intro h σ' hstep
    simp only [stepOp] at hstep
    cases hcb : lookupA σ.buffers h with
    | none =>
      rw [hcb] at hstep
      exact Except.noConfusion hstep
    | some cb =>
      simp only [hcb] at hstep
      by_cases hc : cb.state = CBState.Pending
      · rw [if_pos hc] at hstep
        exact Except.noConfusion hstep
      · rw [if_neg hc] at hstep
        cases hstep
        have hheld : heldSlots σ h = regionSlots cb.regions := by
          simp only [heldSlots, hcb]
        constructor
        · intro i hi
          rw [hheld] at hi
          have hlt : i < σ.pool.slots.length := by
            rw [hInv.poolLen]
            exact hInv.ownedBound (h, cb) (lookupA_mem _ _ _ hcb) i hi
          show (σ.pool.setMany _ _).slotAt i = _
          exact slotAt_setMany_mem _ _ _ _ hi hlt
        · have hupd : lookupA (updateA σ.buffers h
              { cb with state := CBState.Initial, regions := [] }) h =
              some { cb with state := CBState.Initial, regions := [] } := by
            rw [lookupA_updateA_self, hcb]
            rfl
          simp only [heldSlots, hupd]
          rfl
  · intro h σ' hstep
    simp only [stepOp] at hstep
    cases hcb : lookupA σ.buffers h with
    | none =>
      rw [hcb] at hstep
      exact Except.noConfusion hstep
    | some cb =>
      simp only [hcb] at hstep
      by_cases hc : cb.state = CBState.Pending
      · rw [if_pos hc] at hstep
        exact Except.noConfusion hstep
      · rw [if_neg hc] at hstep
        cases hstep
        have hheld : heldSlots σ h = regionSlots cb.regions := by
          simp only [heldSlots, hcb]
        constructor
        · intro i hi
          rw [hheld] at hi
          have hlt : i < σ.pool.slots.length := by
            rw [hInv.poolLen]
            exact hInv.ownedBound (h, cb) (lookupA_mem _ _ _ hcb) i hi
          show (σ.pool.setMany _ _).slotAt i = _
          exact slotAt_setMany_mem _ _ _ _ hi hlt
        · exact lookupA_filter_self σ.buffers h

/-- C3 witness: the slot accounting holds at a concrete reached state. -/
theorem C3_witness :
    c3WitnessState.pool.countState SlotState.Free +
      c3WitnessState.pool.countState SlotState.Reserved +
      c3WitnessState.pool.countState SlotState.Pending +
      c3WitnessState.pool.countState SlotState.Ready = 2 ∧
    (allHeldSlots c3WitnessState).Nodup := by
  have H := C3_slot_accounting 2 [Op.allocate [0]] c3WitnessState (by decide)
  exact ⟨H.1, H.2.2.1⟩

/-- C5: for every permitted operation sequence, the region events emitted
for a command buffer at a given submission generation form a sublist of the
region ids actually slot-assigned in the recording submitted as that
generation (so a subset, with no region emitted more often than it was
recorded, across arbitrarily many repeated drains); every emitted event
belongs to a logged submission; a submit logs exactly the assigned region
ids of the recording at the next generation; and `drainOne` emits events for
a buffer only at the moment it observes that buffer's completion
(`Pending → Executable`). -/
theorem C5_emission_discipline :
    ∀ (cap : Nat) (ops : List Op) (σ : LayerState),
      runOps (initState cap) ops = some σ →
      (∀ lg ∈ σ.submitLog,
        List.Sublist (eventsFor σ lg.1 lg.2.1) lg.2.2) ∧
      (∀ e ∈ σ.emitted, ∃ rs, (e.buffer, e.generation, rs) ∈ σ.submitLog) ∧
      (∀ h σ', stepOp σ (Op.submit h) = Except.ok σ' →
        ∃ cb, lookupA σ.buffers h = some cb ∧
          σ'.submitLog =
            (h, cb.generation + 1, assignedIds cb.regions) :: σ.submitLog) ∧
      (∀ h, (drainOne σ h).emitted ≠ σ.emitted →
        ∃ cb, lookupA σ.buffers h = some cb ∧ cb.state = CBState.Pending ∧
          ∃ cb', lookupA (drainOne σ h).buffers h = some cb' ∧
            cb'.state = CBState.Executable) := by
  intro cap ops σ hrun
  have hInv := runOps_reach_inv hrun
  refine ⟨hInv.eventsSub, hInv.eventsLogged, ?_, ?_⟩
  · intro h σ' hstep
    simp only [stepOp] at hstep
    cases hcb : lookupA σ.buffers h with
    | none =>
      rw [hcb] at hstep
      exact Except.noConfusion hstep
    | some cb =>
      simp only [hcb] at hstep
      by_cases hc : cb.state = CBState.Executable
      · rw [if_pos hc] at hstep
        cases hstep
        exact ⟨cb, rfl, rfl⟩
      · rw [if_neg hc] at hstep
        exact Except.noConfusion hstep
  · intro h hne
    cases hcb : lookupA σ.buffers h with
    | none =>
      have hD : drainOne σ h = σ := by
        simp only [drainOne, hcb]
      rw [hD] at hne
      exact absurd rfl hne
    | some cb =>
      by_cases hst : cb.state = CBState.Pending
      · have hD : drainOne σ h =
            { pool := (σ.pool.MarkReady (regionSlots cb.regions)).Release
                (regionSlots cb.regions),
              buffers := updateA σ.buffers h
                { cb with state := CBState.Executable,
                          regions := cb.regions.map fun r =>
                            { r with slots := none } },
              emitted := σ.emitted ++
                (cb.regions.filter fun r => r.slots.isSome).map fun r =>
                  { buffer := h, regionId := r.regionId,
                    generation := cb.generation },
              submitLog := σ.submitLog } := by
          simp only [drainOne, hcb, if_pos hst]
        refine ⟨cb, rfl, hst,
          { cb with state := CBState.Executable,
                    regions := cb.regions.map fun r =>
                      { r with slots := none } }, ?_, rfl⟩
        rw [hD]
        show lookupA (updateA σ.buffers h _) h = some _
        rw [lookupA_updateA_self, hcb]
        rfl
      · have hD : drainOne σ h = σ := by
          simp only [drainOne, hcb, if_neg hst]
        rw [hD] at hne
        exact absurd rfl hne

/-- C5 witness: the emission discipline evaluated at the state reached by a
concrete record-submit-drain sequence. -/
theorem C5_witness :
    (∀ lg ∈ c5WitnessState.submitLog,
      List.Sublist (eventsFor c5WitnessState lg.1 lg.2.1) lg.2.2) ∧
    (∀ e ∈ c5WitnessState.emitted,
      ∃ rs, (e.buffer, e.generation, rs) ∈ c5WitnessState.submitLog) := by
  have H := C5_emission_discipline 2 c5WitnessOps c5WitnessState (by decide)
  exact ⟨H.1, H.2.1⟩
